import Mathlib

/-!
A verification development for the PALX cross assembler (src/palx/palx.c).

The definitions below are a shallow embedding of the assembler engine:
machine integers (uint16_t) become Nat with explicit reductions mod 65536
or mod 4096 where the C code truncates or masks; C strings become
List Char, with the NUL terminator of an exhausted buffer modelled by
reading the end of the list as the character EOS; the global variables of
palx.c become the fields of one explicit state record threaded through
every operation; the open addressed hash table of LookupSymbol becomes a
name keyed association list (the table never deletes, so its observable
behaviour is exactly lookup by name, creating an undefined entry on a
miss); the memory bitmap becomes the list of marked bit positions.
Each definition names the C function it is translated from.
-/

namespace Palx

/-- End of string character (EOS in palx.c): a C NUL byte. -/
def EOS : Char := Char.ofNat 0

/-- End of line character (EOL in palx.c). -/
def EOL : Char := '\n'

/-- The current character of a text pointer; reading past the end of the
buffer yields the NUL terminator. -/
def peek : List Char → Char
  | [] => EOS
  | c :: _ => c

/-- C isspace over the source character set. -/
def isspaceC (c : Char) : Bool :=
  c = ' ' || c = '\t' || c = '\n' || c = Char.ofNat 11 || c = Char.ofNat 12 || c = '\r'

/-- C isdigit. -/
def isdigitC (c : Char) : Bool := '0' ≤ c && c ≤ '9'

/-- C isalpha (ASCII). -/
def isalphaC (c : Char) : Bool := ('A' ≤ c && c ≤ 'Z') || ('a' ≤ c && c ≤ 'z')

/-- C toupper (ASCII). -/
def toupperC (c : Char) : Char :=
  if 'a' ≤ c && c ≤ 'z' then Char.ofNat (c.toNat - 32) else c

/-- iseol from palx.c: true at the end of the parseable line. -/
def iseol (c : Char) : Bool := c = ';' || c = '>' || c = EOL || c = EOS

/-- isid1 from palx.c: legal start-of-identifier character. -/
def isid1 (c : Char) : Bool := isalphaC c || c = '%' || c = '$' || c = '_'

/-- isid2 from palx.c: legal identifier character. -/
def isid2 (c : Char) : Bool := isid1 c || isdigitC c || c = '.'

/-- SpanWhite from palx.c: skip white space, but newline is not white
space in assembly language.  The C routine advances the text pointer. -/
def spanWhite : List Char → List Char
  | [] => []
  | c :: t => if isspaceC c && c ≠ EOL then spanWhite t else c :: t

/-- Symbol types, enum _SYMBOL_TYPES of palx.c.  OP_PIO6103 models the
OP_PIO constant (parallel I/O for the IM6103 chip). -/
inductive SYMBOL_TYPE where
  | SF_UDF | SF_TAG | SF_EQU | SF_OPDEF | SF_MAC | SF_MDF
  | OP_MRI | OP_OPR | OP_IOT | OP_PIE | OP_PIO6103 | OP_CXF
  | PO_POP
  deriving DecidableEq, Repr

/-- A symbol table record (struct _SYMBOL).  The Value union is modelled
by the numeric member bin, which is the only member the expression
evaluator reads; pseudo op handler pointers and macro bodies are carried
outside the table by the functions that need them.  Cross reference
chains are not modelled (no claim concerns them). -/
structure Sym where
  nType : SYMBOL_TYPE
  bin : Nat
  deriving DecidableEq, Repr

/-- Error code letters from palx.c. -/
def ER_RAN : Char := 'A'
/-- too many macro arguments or macro too long -/
def ER_MAC : Char := 'C'
/-- location loaded more than once -/
def ER_DUP : Char := 'D'
/-- .ERROR pseudo op -/
def ER_ERR : Char := 'E'
/-- off field reference warning -/
def ER_OFF : Char := 'F'
/-- unknown .LIST/.NOLIST option -/
def ER_LST : Char := 'L'
/-- multiply defined -/
def ER_MDF : Char := 'M'
/-- illegal format for number -/
def ER_IFN : Char := 'N'
/-- illegal micro-coded combination -/
def ER_MIC : Char := 'O'
/-- page full error -/
def ER_PAF : Char := 'P'
/-- a symbol has been improperly defined -/
def ER_SYM : Char := 'S'
/-- undefined symbol -/
def ER_UDF : Char := 'U'
/-- illegal character in SIXBIT string -/
def ER_TXT : Char := 'T'
/-- syntax error -/
def ER_SYN : Char := 'X'
/-- illegal off page reference -/
def ER_SCT : Char := 'W'
/-- badly formed or unknown pseudo op -/
def ER_POP : Char := 'Z'

/-- A macro definition, struct _MACDEF of palx.c (SF_MACRO symbols). -/
structure MACDEF where
  aszFormals : List String
  pszBody : List Char
  deriving DecidableEq, Repr

/-- An active macro expansion, struct _MACEXP of palx.c. -/
structure MACEXP where
  pDefinition : MACDEF
  aszActuals : List String
  pszNextLine : List Char
  deriving DecidableEq, Repr

/-- The global variables of palx.c gathered into one explicit state
record.  emitted is the sequence of (address, code) words delivered to
Punch, i.e. the observable output of the code emission boundary;
abBitMap is the set of bit positions (field shifted left 12 or-ed with
the address) that MarkBitMap has set. -/
structure PalxState where
  symbols : List (String × Sym)
  nPass : Nat
  nPC : Nat
  nField : Nat
  nCPU : Nat
  nLiteralBase : Nat
  anLiteralData : List Nat
  szErrorFlags : List Char
  szIgnoredErrors : List Char
  nErrorCount : Nat
  nSourceLine : Nat
  fASCII8BIT : Bool
  fOS8SIXBIT : Bool
  nLinesPerPage : Nat
  nColumnsPerPage : Nat
  fNewPage : Bool
  fListSymbols : Bool
  fListMap : Bool
  fListExpansions : Bool
  fListText : Bool
  fListTOC : Bool
  fPaginate : Bool
  pCurrentMacros : List MACEXP
  nGeneratedLabel : Nat
  nPUSH : Nat
  nPOP : Nat
  nPUSHJ : Nat
  nPOPJ : Nat
  nLastBinaryAddress : Nat
  nBinaryChecksum : Nat
  abBitMap : List Nat
  emitted : List (Nat × Nat)
  deriving DecidableEq

/-- Flag from palx.c: add an error letter to the error flags of the
current line, unless that code is ignored (.NOWARN) or already present;
the total error count grows only when a letter is actually added.  The
C routine always returns false, which callers return directly. -/
def Flag (ch : Char) (st : PalxState) : PalxState :=
  if ch ∈ st.szIgnoredErrors then st
  else if ch ∈ st.szErrorFlags then st
  else { st with szErrorFlags := st.szErrorFlags ++ [ch],
                 nErrorCount := st.nErrorCount + 1 }

/-- Punch from palx.c: deliver one word (address, code) to the binary
file.  The byte level BIN format is out of scope; the observable event
is the word itself, and nLastBinaryAddress tracks the last address. -/
def punch (nAddress nCode : Nat) (st : PalxState) : PalxState :=
  { st with emitted := st.emitted ++ [(nAddress, nCode)],
            nLastBinaryAddress := nAddress }

/-- MarkBitMap from palx.c: set the bitmap bit for (field, address),
flagging a D error when the bit was already set. -/
def markBitMap (fld nAddress : Nat) (st : PalxState) : PalxState :=
  let bit := Nat.lor (fld <<< 12) nAddress
  let st := if bit ∈ st.abBitMap then Flag ER_DUP st else st
  { st with abBitMap := st.abBitMap ++ [bit] }

/-- The addresses of the live literal pool entries: EvaluateLiteral and
DumpLiterals both scan nLoc upward from nLiteralBase for as long as
(nLoc AND 0177) is nonzero. -/
def liveAddrs (st : PalxState) : List Nat :=
  List.range' st.nLiteralBase ((128 - st.nLiteralBase % 128) % 128)

/-- The pool word stored for address a (anLiteralData[a AND 0177]). -/
def poolVal (st : PalxState) (a : Nat) : Nat :=
  st.anLiteralData.getD (a % 128) 0

/-- The scan loop shared by EvaluateLiteral (lines 1675-1679): starting
at address loc, test k successive pool slots for the value v and return
the first address whose slot holds v. -/
def findLoop (pool : List Nat) (v : Nat) : Nat → Nat → Option Nat
  | _, 0 => none
  | loc, k + 1 =>
    if pool.getD (loc % 128) 0 = v then some loc
    else findLoop pool v (loc + 1) k

/-- The dedup search of EvaluateLiteral: find a live pool entry holding
value v, scanning upward from nLiteralBase while (nLoc AND 0177) is not
zero. -/
def findLiteral (st : PalxState) (v : Nat) : Option Nat :=
  findLoop st.anLiteralData v st.nLiteralBase ((128 - st.nLiteralBase % 128) % 128)

/-- The literal pool portion of EvaluateLiteral (lines 1673-1690): reuse
an existing matching entry, otherwise allocate the next slot downward,
refusing with a page full error when nLiteralBase <= nPC+1.  Returns
(success, value written to pnValue, new state); on refusal the value is
the 0 stored at entry to EvaluateLiteral. -/
def internLiteral (v : Nat) (st : PalxState) : Bool × Nat × PalxState :=
  match findLiteral st v with
  | some a => (true, a, st)
  | none =>
    if st.nLiteralBase ≤ st.nPC + 1 then (false, 0, Flag ER_PAF st)
    else
      let b := st.nLiteralBase - 1
      (true, b, { st with nLiteralBase := b,
                          anLiteralData := st.anLiteralData.set (b % 128) v })

/-- The emission loop of DumpLiterals (lines 1389-1392): punch k pool
words starting at address loc. -/
def dumpLoop : Nat → Nat → PalxState → PalxState
  | _, 0, st => st
  | loc, k + 1, st =>
    let st := punch loc (st.anLiteralData.getD (loc % 128) 0) st
    let st := markBitMap st.nField loc st
    dumpLoop (loc + 1) k st

/-- DumpLiterals from palx.c: under pass 2, emit every live literal as a
data word at its assigned address.  There is no literal processing under
pass 1. -/
def dumpLiterals (st : PalxState) : PalxState :=
  if st.nPass ≠ 2 then st
  else dumpLoop st.nLiteralBase ((128 - st.nLiteralBase % 128) % 128) st

/-- OutputCode from palx.c (listing-only parameters omitted): if the PC
has reached the literal base, either let the PC flow onto the next page
(resetting the base) when the pool is empty, or flag a page full error;
then, under pass 2 only, punch the word and mark the bitmap; finally
increment the PC (a uint16_t). -/
def outputCode (nCode : Nat) (st : PalxState) : PalxState :=
  let st :=
    if st.nLiteralBase ≤ st.nPC then
      if st.nLiteralBase % 128 = 0 then
        { st with nLiteralBase := Nat.land st.nPC 0o7600 + 0o200 }
      else Flag ER_PAF st
    else st
  let st :=
    if st.nPass = 2 then markBitMap st.nField st.nPC (punch st.nPC nCode st)
    else st
  { st with nPC := (st.nPC + 1) % 65536 }

/-- SetPC from palx.c: move the location counter to an absolute address,
flagging a range error above 07777; moving to a different page (or off
the exactly-full previous page, tested via nPC = nLiteralBase) first
dumps the literal pool and re-bases it on the new page. -/
def setPC (nNew : Nat) (st : PalxState) : Bool × PalxState :=
  if 0o7777 < nNew then (false, Flag ER_RAN st)
  else
    let st :=
      if Nat.land nNew 0o7600 ≠ Nat.land st.nPC 0o7600 ∨ st.nPC = st.nLiteralBase then
        let st := dumpLiterals st
        { st with nLiteralBase := Nat.land nNew 0o7600 + 0o200 }
      else st
    (true, { st with nPC := nNew })

/-- Memory reference and operate opcodes from InitializeSymbols. -/
def initSymbols1 : List (String × Sym) :=
  [("AND", ⟨.OP_MRI, 0o0000⟩), ("TAD", ⟨.OP_MRI, 0o1000⟩),
   ("ISZ", ⟨.OP_MRI, 0o2000⟩), ("DCA", ⟨.OP_MRI, 0o3000⟩),
   ("JMS", ⟨.OP_MRI, 0o4000⟩), ("JMP", ⟨.OP_MRI, 0o5000⟩),
   ("NOP", ⟨.OP_OPR, 0o7000⟩), ("IAC", ⟨.OP_OPR, 0o7001⟩),
   ("RAL", ⟨.OP_OPR, 0o7004⟩), ("RTL", ⟨.OP_OPR, 0o7006⟩),
   ("RAR", ⟨.OP_OPR, 0o7010⟩), ("RTR", ⟨.OP_OPR, 0o7012⟩),
   ("BSW", ⟨.OP_OPR, 0o7002⟩), ("CML", ⟨.OP_OPR, 0o7020⟩),
   ("CMA", ⟨.OP_OPR, 0o7040⟩), ("CIA", ⟨.OP_OPR, 0o7041⟩),
   ("CLL", ⟨.OP_OPR, 0o7100⟩), ("STL", ⟨.OP_OPR, 0o7120⟩),
   ("CLA", ⟨.OP_OPR, 0o7200⟩), ("GLK", ⟨.OP_OPR, 0o7204⟩),
   ("STA", ⟨.OP_OPR, 0o7240⟩), ("HLT", ⟨.OP_OPR, 0o7402⟩),
   ("OSR", ⟨.OP_OPR, 0o7404⟩), ("SKP", ⟨.OP_OPR, 0o7410⟩),
   ("SNL", ⟨.OP_OPR, 0o7420⟩), ("SZL", ⟨.OP_OPR, 0o7430⟩),
   ("SZA", ⟨.OP_OPR, 0o7440⟩), ("SNA", ⟨.OP_OPR, 0o7450⟩),
   ("SMA", ⟨.OP_OPR, 0o7500⟩), ("SPA", ⟨.OP_OPR, 0o7510⟩),
   ("LAS", ⟨.OP_OPR, 0o7604⟩), ("MQL", ⟨.OP_OPR, 0o7421⟩),
   ("MQA", ⟨.OP_OPR, 0o7501⟩), ("SWP", ⟨.OP_OPR, 0o7521⟩),
   ("CAM", ⟨.OP_OPR, 0o7621⟩), ("ACL", ⟨.OP_OPR, 0o7701⟩)]

/-- Change field and IOT opcodes from InitializeSymbols. -/
def initSymbols2 : List (String × Sym) :=
  [("CDF", ⟨.OP_CXF, 0o6201⟩), ("CIF", ⟨.OP_CXF, 0o6202⟩),
   ("CXF", ⟨.OP_CXF, 0o6203⟩),
   ("RDF", ⟨.OP_IOT, 0o6214⟩), ("RIF", ⟨.OP_IOT, 0o6224⟩),
   ("RIB", ⟨.OP_IOT, 0o6234⟩), ("RMF", ⟨.OP_IOT, 0o6244⟩),
   ("SKON", ⟨.OP_IOT, 0o6000⟩), ("ION", ⟨.OP_IOT, 0o6001⟩),
   ("IOF", ⟨.OP_IOT, 0o6002⟩), ("SRQ", ⟨.OP_IOT, 0o6003⟩),
   ("GTF", ⟨.OP_IOT, 0o6004⟩), ("RTF", ⟨.OP_IOT, 0o6005⟩),
   ("SGT", ⟨.OP_IOT, 0o6006⟩), ("CAF", ⟨.OP_IOT, 0o6007⟩)]

/-- Pseudo operations from InitializeSymbols. -/
def initSymbols3 : List (String × Sym) :=
  [(".END", ⟨.PO_POP, 0⟩), (".ORG", ⟨.PO_POP, 0⟩),
   (".DATA", ⟨.PO_POP, 0⟩), (".TITLE", ⟨.PO_POP, 0⟩),
   (".ASCIZ", ⟨.PO_POP, 0⟩), (".BLOCK", ⟨.PO_POP, 0⟩),
   (".SIXBIT", ⟨.PO_POP, 0⟩), (".SIXBIZ", ⟨.PO_POP, 0⟩),
   (".MRI", ⟨.PO_POP, 0⟩), (".NLOAD", ⟨.PO_POP, 0⟩),
   (".PAGE", ⟨.PO_POP, 0⟩), (".FIELD", ⟨.PO_POP, 0⟩),
   (".HD6120", ⟨.PO_POP, 0⟩), (".IM6100", ⟨.PO_POP, 0⟩),
   (".VECTOR", ⟨.PO_POP, 0⟩), (".STACK", ⟨.PO_POP, 0⟩),
   (".PUSH", ⟨.PO_POP, 0⟩), (".POP", ⟨.PO_POP, 0⟩),
   (".PUSHJ", ⟨.PO_POP, 0⟩), (".POPJ", ⟨.PO_POP, 0⟩),
   (".TEXT", ⟨.PO_POP, 0⟩), (".DEFINE", ⟨.PO_POP, 0⟩),
   (".IFDEF", ⟨.PO_POP, 0⟩), (".IFNDEF", ⟨.PO_POP, 0⟩),
   (".IFEQ", ⟨.PO_POP, 0⟩), (".IFNE", ⟨.PO_POP, 0⟩),
   (".IFLT", ⟨.PO_POP, 0⟩), (".IFLE", ⟨.PO_POP, 0⟩),
   (".IFGT", ⟨.PO_POP, 0⟩), (".IFGE", ⟨.PO_POP, 0⟩),
   (".NOWARN", ⟨.PO_POP, 0⟩), (".ERROR", ⟨.PO_POP, 0⟩),
   (".LIST", ⟨.PO_POP, 0⟩), (".NOLIST", ⟨.PO_POP, 0⟩),
   (".ENABLE", ⟨.PO_POP, 0⟩), (".DISABLE", ⟨.PO_POP, 0⟩),
   (".EJECT", ⟨.PO_POP, 0⟩), (".HM6120", ⟨.PO_POP, 0⟩)]

/-- The built in symbol table loaded by InitializeSymbols (machine
opcodes and pseudo operations; the Intersil and Harris extended sets are
loaded later by the .IM6100 and .HD6120 directives, not at startup).
Pseudo op records carry their handler pointer, modelled as bin = 0. -/
def initSymbols : List (String × Sym) :=
  initSymbols1 ++ initSymbols2 ++ initSymbols3

/-- The state of the globals after the initialization in main:
InitializeSymbols, ClearBitMap, ParseOptions defaults (60 lines, 120
columns, both character options off), and zeroed statics. -/
def initState : PalxState :=
  { symbols := initSymbols
    nPass := 0, nPC := 0, nField := 0, nCPU := 0
    nLiteralBase := 0
    anLiteralData := List.replicate 128 0
    szErrorFlags := [], szIgnoredErrors := []
    nErrorCount := 0, nSourceLine := 0
    fASCII8BIT := false, fOS8SIXBIT := false
    nLinesPerPage := 60, nColumnsPerPage := 120
    fNewPage := false, fListSymbols := false, fListMap := false
    fListExpansions := false, fListText := false, fListTOC := false
    fPaginate := false
    pCurrentMacros := [], nGeneratedLabel := 0
    nPUSH := 0, nPOP := 0, nPUSHJ := 0, nPOPJ := 0
    nLastBinaryAddress := 0, nBinaryChecksum := 0
    abBitMap := [], emitted := [] }

/-- The per pass initialization at the top of Pass (palx.c lines
3512-3519): every assignment made there, applied to the current
globals.  Variables Pass does not assign (the symbol table, the bitmap,
the listing page geometry, the OS8/ASR options, the output already
emitted) are left untouched. -/
def passInit (n : Nat) (st : PalxState) : PalxState :=
  { st with
    nPass := n, nCPU := 0, nErrorCount := 0, nSourceLine := 0
    nPC := 0o200, nField := 0, nLiteralBase := 0o200 + 0o200
    fNewPage := true, fListExpansions := true, fPaginate := true
    fListSymbols := true, fListMap := true, fListTOC := true
    fListText := true
    szErrorFlags := [], szIgnoredErrors := []
    pCurrentMacros := [], nGeneratedLabel := 0
    nPUSH := 0, nPOP := 0, nPUSHJ := 0, nPOPJ := 0
    nLastBinaryAddress := 0o10000, nBinaryChecksum := 0 }

/-- LookupSymbol with fEnter = false: return the record for the name if
present, and nothing otherwise (nothing is entered into the table). -/
def lookupNoCreate (name : String) (st : PalxState) : Option Sym :=
  st.symbols.lookup name

/-- LookupSymbol with fEnter = true: return the existing record for the
name, or create a new one of type SF_UDF with all other fields zero. -/
def lookupCreate (name : String) (st : PalxState) : Sym × PalxState :=
  match st.symbols.lookup name with
  | some s => (s, st)
  | none =>
    let s : Sym := ⟨.SF_UDF, 0⟩
    (s, { st with symbols := (name, s) :: st.symbols })

/-- Overwrite the record stored for a name (the C code mutates the
record through the pointer returned by LookupSymbol). -/
def updateSym (name : String) (s : Sym) (st : PalxState) : PalxState :=
  { st with
    symbols := st.symbols.map fun p => if p.1 = name then (p.1, s) else p }

/-- The character accumulation loop of ScanName: take the identifier
characters, upper cased, and also return the remaining text (all
identifier characters are skipped even beyond the length cap). -/
def scanChars : List Char → List Char × List Char
  | [] => ([], [])
  | c :: t =>
    if isid2 c then
      let (cs, rest) := scanChars t
      (toupperC c :: cs, rest)
    else ([], c :: t)

/-- ScanName from palx.c: skip white space, then scan an identifier.
The stored name keeps at most IDLEN-1 = 11 characters (the rest are
scanned and skipped); if no start-of-identifier character is found the
scan fails with the text pointer after the white space. -/
def scanName (t : List Char) : Option String × List Char :=
  let t := spanWhite t
  if isid1 (peek t) then
    let (cs, rest) := scanChars t
    (some (String.mk (cs.take 11)), rest)
  else (none, t)

/-- The digit accumulation loop of ScanNumber: octal and decimal values
accumulate in uint16_t variables (reduced mod 65536 on assignment, the
octal one through a left shift and an or), and fDecimal records whether
a digit above 7 was seen. -/
def scanDigits : List Char → Nat → Nat → Bool → Nat × Nat × Bool × List Char
  | [], o, d, f => (o, d, f, [])
  | c :: t, o, d, f =>
    if isdigitC c then
      scanDigits t (Nat.lor (o <<< 3) (c.toNat - 48) % 65536)
        ((d * 10 + (c.toNat - 48)) % 65536) (f || '7' < c)
    else (o, d, f, c :: t)

/-- ScanNumber from palx.c: scan a number, octal by default, decimal
with a '.' or 'D' suffix, octal with a 'B' suffix (illegal if a digit
above 7 was seen); a missing digit or a bad suffix flags an N error and
fails, leaving pnValue unwritten (the caller passed 0). -/
def scanNumber (t : List Char) (st : PalxState) :
    Option Nat × List Char × PalxState :=
  let t := spanWhite t
  let (o, d, f, rest) := scanDigits t 0 0 false
  if t = rest then (none, rest, Flag ER_IFN st)
  else if toupperC (peek rest) = 'B' then
    if f then (none, rest, Flag ER_IFN st)
    else (some o, rest.tail, st)
  else if toupperC (peek rest) = 'D' ∨ peek rest = '.' then
    (some d, rest.tail, st)
  else (some (if f then d else o), rest, st)

/-- The low 12 bits of a C int, as & 07777 computes them on a two's
complement machine: the nonnegative residue mod 4096. -/
def mask12 (x : Int) : Nat := (x % 4096).toNat

/-- The unary minus of EvaluateOperand: (4096 - *pnValue) & 07777,
computed in int arithmetic. -/
def negate12 (v : Nat) : Nat := mask12 (4096 - (v : Int))

/-- The unary tilde of EvaluateOperand: (~*pnValue) & 07777; C ~v on a
promoted uint16_t is -v-1. -/
def complement12 (v : Nat) : Nat := mask12 (-(v : Int) - 1)

/-- True for the binary operator characters EvaluateExpression accepts. -/
def isOperatorChar (c : Char) : Bool :=
  c = '-' || c = '+' || c = '&' || c = '|' || c = '*' || c = '/' || c = '%'

/-- The operator switch of EvaluateExpression (palx.c lines 1793-1801).
Division by zero is undefined behaviour in the C source (a fatal trap on
real hardware); the total Lean function returns 0 there and no theorem
relies on that case.  The multiply is masked to 12 bits, so the exact
product and the int-wrapped product agree. -/
def applyOperator (c : Char) (a b : Nat) : Nat :=
  if c = '+' then mask12 ((a : Int) + b)
  else if c = '-' then mask12 ((a : Int) + (4096 - (b : Int)))
  else if c = '&' then Nat.land (Nat.land a b) 0o7777
  else if c = '|' then Nat.land (Nat.lor a b) 0o7777
  else if c = '*' then mask12 ((a : Int) * b)
  else if c = '/' then Nat.land (a / b) 0o7777
  else if c = '%' then Nat.land (a % b) 0o7777
  else 0

/-- OPRGroup from palx.c: the group (1, 2 or 3) of an operate micro
instruction. -/
def OPRGroup (nOpcode : Nat) : Nat :=
  if Nat.land nOpcode 0o7400 = 0o7000 then 1
  else if Nat.land nOpcode 0o7401 = 0o7400 then 2
  else if Nat.land nOpcode 0o7401 = 0o7401 then 3
  else 0

/-- The result of an evaluator routine: the C bool return value, the
value left in *pnValue (meaningful to callers even on failure), the
advanced text pointer, and the updated globals. -/
structure ERes where
  ok : Bool
  val : Nat
  rest : List Char
  st : PalxState

/-- EvaluateString from palx.c: a quoted single character yields its
ASCII value, or-ed with 0200 under the ASR33 always-mark option; a
missing closing quote flags a syntax error. -/
def evaluateString (t : List Char) (st : PalxState) : ERes :=
  match t with
  | '\"' :: rest =>
    let v := (peek rest).toNat
    let v := if st.fASCII8BIT then Nat.lor v 0o200 else v
    let rest := rest.tail
    if peek rest = '\"' then ⟨true, v, rest.tail, st⟩
    else ⟨false, v, rest, Flag ER_SYN st⟩
  | _ => ⟨false, 0, t, st⟩

/-- EvaluateLiteral minus its pool bookkeeping: skip the bracket,
evaluate the inner expression with the given evaluator, match the
closing bracket, then intern the value (internLiteral).  Failures flag a
syntax error and yield the 0 stored at entry. -/
def evaluateLiteralWith (ev : List Char → PalxState → ERes)
    (t : List Char) (st : PalxState) : ERes :=
  let r := ev t.tail st
  if !r.ok then ⟨false, 0, r.rest, Flag ER_SYN r.st⟩
  else
    match r.rest with
    | ']' :: rest =>
      let (ok, v, st) := internLiteral r.val r.st
      ⟨ok, v, rest, st⟩
    | rest => ⟨false, 0, rest, Flag ER_SYN r.st⟩

mutual

/-- EvaluateSymbol from palx.c: look the name up (creating an undefined
entry), then: labels yield their 12 bit address with an off-field
warning when the stored field differs from the current one; equates
yield their value as is; opcode classes delegate to the opcode scanner;
undefined, multiply defined and other symbols flag U, M and S and yield
zero with failure. -/
def evaluateSymbol : Nat → String → List Char → PalxState → ERes
  | 0, _, t, st => ⟨false, 0, t, st⟩
  | fuel + 1, name, t, st =>
    let (sym, st) := lookupCreate name st
    match sym.nType with
    | .SF_TAG =>
      let st := if Nat.land (sym.bin >>> 12) 7 ≠ st.nField then Flag ER_OFF st else st
      ⟨true, Nat.land sym.bin 0o7777, t, st⟩
    | .SF_EQU => ⟨true, sym.bin, t, st⟩
    | .SF_OPDEF => evaluateOpcode fuel sym t st
    | .OP_MRI => evaluateOpcode fuel sym t st
    | .OP_OPR => evaluateOpcode fuel sym t st
    | .OP_IOT => evaluateOpcode fuel sym t st
    | .OP_PIE => evaluateOpcode fuel sym t st
    | .OP_PIO6103 => evaluateOpcode fuel sym t st
    | .OP_CXF => evaluateOpcode fuel sym t st
    | .SF_UDF => ⟨false, 0, t, Flag ER_UDF st⟩
    | .SF_MDF => ⟨false, 0, t, Flag ER_MDF st⟩
    | _ => ⟨false, 0, t, Flag ER_SYM st⟩

/-- EvaluateOpcode from palx.c: dispatch on the instruction class. -/
def evaluateOpcode : Nat → Sym → List Char → PalxState → ERes
  | 0, _, t, st => ⟨false, 0, t, st⟩
  | fuel + 1, sym, t, st =>
    match sym.nType with
    | .OP_MRI => evaluateMRI fuel sym t st
    | .SF_OPDEF => evaluateMRI fuel sym t st
    | .OP_OPR => oprLoop fuel sym.bin t st
    | .OP_CXF => evaluateCXF fuel sym t st
    | .OP_PIE => evaluateEIOSelect fuel sym t st
    | .OP_PIO6103 => evaluateEIOSelect fuel sym t st
    | .OP_IOT => ⟨true, sym.bin, t, st⟩
    | _ => ⟨false, 0, t, st⟩

/-- EvaluateMRI from palx.c: handle the indirect flag, evaluate the
address, then choose page zero or current page addressing, flagging an
off page reference otherwise. -/
def evaluateMRI : Nat → Sym → List Char → PalxState → ERes
  | 0, _, t, st => ⟨false, 0, t, st⟩
  | fuel + 1, sym, t, st =>
    let t := spanWhite t
    let (v, t) := if peek t = '@' then (Nat.lor sym.bin 0o400, t.tail) else (sym.bin, t)
    let r := evaluateExpression fuel t st
    if !r.ok then ⟨false, v, r.rest, r.st⟩
    else if Nat.land r.val 0o7600 = 0 then ⟨true, Nat.lor v r.val, r.rest, r.st⟩
    else if Nat.land r.val 0o7600 = Nat.land r.st.nPC 0o7600 then
      ⟨true, Nat.lor v (Nat.lor 0o200 (Nat.land r.val 0o177)), r.rest, r.st⟩
    else ⟨false, v, r.rest, Flag ER_SCT r.st⟩

/-- The combining loop of EvaluateOPR: keep scanning names, or-ing in
operate micro instructions, flagging an O error for a non OPR symbol
(with failure) or for a cross group combination other than CLA (and
continuing). -/
def oprLoop : Nat → Nat → List Char → PalxState → ERes
  | 0, v, t, st => ⟨false, v, t, st⟩
  | fuel + 1, v, t, st =>
    match scanName t with
    | (none, t) => ⟨true, v, t, st⟩
    | (some name, t) =>
      let (sym, st) := lookupCreate name st
      if sym.nType ≠ .OP_OPR then ⟨false, v, t, Flag ER_MIC st⟩
      else
        let st :=
          if v ≠ 0o7200 ∧ sym.bin ≠ 0o7200 ∧ OPRGroup v ≠ OPRGroup sym.bin then
            Flag ER_MIC st
          else st
        oprLoop fuel (Nat.lor v sym.bin) t st

/-- EvaluateCXF from palx.c: a change field instruction takes a field
number 0..7, positioned at bits 3-5; larger values flag a range error. -/
def evaluateCXF : Nat → Sym → List Char → PalxState → ERes
  | 0, _, t, st => ⟨false, 0, t, st⟩
  | fuel + 1, sym, t, st =>
    let r := evaluateExpression fuel t st
    if !r.ok then ⟨false, 0, r.rest, r.st⟩
    else if 7 < r.val then ⟨false, 0, r.rest, Flag ER_RAN r.st⟩
    else ⟨true, Nat.lor sym.bin (r.val <<< 3), r.rest, r.st⟩

/-- EvaluateEIO from palx.c: the IM6101 (PIE) and IM6103 (PIO)
instructions take a chip select address, shifted into position; out of
range addresses flag a range error. -/
def evaluateEIOSelect : Nat → Sym → List Char → PalxState → ERes
  | 0, _, t, st => ⟨false, 0, t, st⟩
  | fuel + 1, sym, t, st =>
    let r := evaluateExpression fuel t st
    if !r.ok then ⟨false, 0, r.rest, r.st⟩
    else if sym.nType = .OP_PIE then
      if r.val = 0 ∨ 31 < r.val then ⟨false, 0, r.rest, Flag ER_RAN r.st⟩
      else ⟨true, Nat.lor sym.bin (r.val <<< 4), r.rest, r.st⟩
    else
      if r.val = 0 ∨ 3 < r.val then ⟨false, 0, r.rest, Flag ER_RAN r.st⟩
      else ⟨true, Nat.lor sym.bin (r.val <<< 4), r.rest, r.st⟩

/-- EvaluateOperand from palx.c: an optional leading sign (+, - or ~),
then a primary: a nested expression, the location counter (* or .), a
literal, a quoted character, a number, or an identifier; anything else
flags a syntax error.  The sign is applied only on success. -/
def evaluateOperand : Nat → List Char → PalxState → ERes
  | 0, t, st => ⟨false, 0, t, st⟩
  | fuel + 1, t, st =>
    let t := spanWhite t
    let (fNeg, fCompl, t) :=
      if peek t = '+' ∨ peek t = '-' ∨ peek t = '~' then
        (peek t == '-', peek t == '~', spanWhite t.tail)
      else (false, false, t)
    let r : ERes :=
      if peek t = '(' then
        let r := evaluateExpression fuel t.tail st
        if !r.ok then ⟨false, r.val, r.rest, Flag ER_SYN r.st⟩
        else
          match r.rest with
          | ')' :: rest => ⟨true, r.val, rest, r.st⟩
          | rest => ⟨false, r.val, rest, Flag ER_SYN r.st⟩
      else if peek t = '*' ∨ peek t = '.' then ⟨true, st.nPC, t.tail, st⟩
      else if peek t = '[' then evaluateLiteralWith (evaluateExpression fuel) t st
      else if peek t = '\"' then evaluateString t st
      else if isdigitC (peek t) then
        match scanNumber t st with
        | (some n, rest, st) => ⟨true, n, rest, st⟩
        | (none, rest, st) => ⟨false, 0, rest, st⟩
      else if isid1 (peek t) then
        match scanName t with
        | (some name, rest) => evaluateSymbol fuel name rest st
        | (none, rest) => ⟨false, 0, rest, st⟩
      else ⟨false, 0, t, Flag ER_SYN st⟩
    if !r.ok then r
    else
      let v := if fNeg then negate12 r.val else r.val
      let v := if fCompl then complement12 v else v
      ⟨true, v, r.rest, r.st⟩

/-- The operator loop of EvaluateExpression: stop at the first character
that is not an operator; otherwise evaluate the next operand and fold it
in with applyOperator.  An operand failure returns failure with the
value folded so far left in *pnValue. -/
def exprLoop : Nat → Nat → List Char → PalxState → ERes
  | 0, v, t, st => ⟨false, v, t, st⟩
  | fuel + 1, v, t, st =>
    let t := spanWhite t
    let c := peek t
    if !isOperatorChar c then ⟨true, v, t, st⟩
    else
      let r := evaluateOperand fuel t.tail st
      if !r.ok then ⟨false, v, r.rest, r.st⟩
      else exprLoop fuel (applyOperator c v r.val) r.rest r.st

/-- EvaluateExpression from palx.c: an operand followed by the operator
loop, strictly left to right. -/
def evaluateExpression : Nat → List Char → PalxState → ERes
  | 0, t, st => ⟨false, 0, t, st⟩
  | fuel + 1, t, st =>
    let r := evaluateOperand fuel t st
    if !r.ok then ⟨false, r.val, r.rest, r.st⟩
    else exprLoop fuel r.val r.rest r.st

end

/-- Strip a leading dollar sign from a formal argument name (generated
label formals begin with one but it is not part of the name). -/
def stripDollar (s : String) : String :=
  match s.data with
  | '$' :: rest => String.mk rest
  | _ => s

/-- The search loop of SearchFormals: walk the formal and actual lists
in step; a missing actual (fewer actuals than formals; the C arrays are
zeroed) is the empty string. -/
def sfLoop : List String → List String → String → Option String
  | [], _, _ => none
  | f :: fs, acts, name =>
    if name = stripDollar f then some (acts.headD "")
    else sfLoop fs acts.tail name

/-- SearchFormals from palx.c: find the actual argument string bound to
a formal name in the active expansion, or nothing if the name matches no
formal. -/
def searchFormals (exp : MACEXP) (name : String) : Option String :=
  sfLoop exp.pDefinition.aszFormals exp.aszActuals name

/-- The outcome of GetMacroLine: no more body text (the C routine
returns false), a produced source line together with the advanced body
cursor, or the FatalError path (macro expansion too long; also covers
reading past an unterminated body, which the C code would do with
undefined behaviour - macro bodies built by DotDEFINE always end in a
newline). -/
inductive MacroLineResult where
  | noMore
  | line (text : List Char) (cursor : List Char) (st : PalxState)
  | fatal

/-- The character copying loop of GetMacroLine: a doubled dollar yields
one dollar; a dollar followed by a name is replaced by the matching
actual (or by nothing when no formal matches, or a flagged syntax error
when no name follows); other characters are copied, and the line ends
when a newline is copied.  The buffer caps are those of the C code
(MAXSTRING-1 = 255). -/
def gmlLoop (exp : MACEXP) : Nat → List Char → List Char → PalxState →
    MacroLineResult
  | 0, _, _, _ => .fatal
  | _ + 1, _, [], _ => .fatal
  | fuel + 1, acc, ch :: cur, st =>
    if ch = '$' then
      if peek cur = '$' then gmlLoop exp fuel (acc ++ ['$']) cur.tail st
      else
        match scanName cur with
        | (none, cur') => gmlLoop exp fuel acc cur' (Flag ER_SYN st)
        | (some name, cur') =>
          match searchFormals exp name with
          | some arg =>
            if 255 < acc.length + arg.length then .fatal
            else gmlLoop exp fuel (acc ++ arg.data) cur' st
          | none => gmlLoop exp fuel acc cur' st
    else
      if 255 ≤ acc.length then .fatal
      else if ch = EOL then .line (acc ++ [EOL]) cur st
      else gmlLoop exp fuel (acc ++ [ch]) cur st

/-- GetMacroLine from palx.c: copy the next line out of the macro body,
expanding parameters as it goes; returns noMore when the body is
exhausted.  Every loop iteration consumes at least one body character,
so the body length bounds the iteration count. -/
def getMacroLine (exp : MACEXP) (st : PalxState) : MacroLineResult :=
  if peek exp.pszNextLine = EOS then .noMore
  else gmlLoop exp (exp.pszNextLine.length + 1) [] exp.pszNextLine st

/-- The per label core of CheckLabel (palx.c lines 3317-3328): on pass 1
an undefined symbol becomes a label valued (field shifted left 12 or-ed
with the PC) and any already defined symbol becomes multiply defined
with its value untouched; on pass 2 the symbol is only checked, and a
non label flags an S error. -/
def defineLabel (name : String) (st : PalxState) : PalxState :=
  let (sym, st) := lookupCreate name st
  if st.nPass = 1 then
    if sym.nType = .SF_UDF then
      updateSym name ⟨.SF_TAG, Nat.lor (st.nField <<< 12) st.nPC⟩ st
    else updateSym name ⟨.SF_MDF, sym.bin⟩ st
  else
    if sym.nType ≠ .SF_TAG then Flag ER_SYM st else st

/-- CheckLabel from palx.c: scan "name :" pairs off the front of the
line, processing each; when the scan ahead finds no label the original
text pointer is left unchanged.  Returns whether at least one label was
found. -/
def checkLabel : Nat → List Char → PalxState → Bool × List Char × PalxState
  | 0, t, st => (false, t, st)
  | fuel + 1, t, st =>
    match scanName t with
    | (none, _) => (false, t, st)
    | (some name, t') =>
      let t'' := spanWhite t'
      if peek t'' = ':' then
        let st := defineLabel name st
        let r := checkLabel fuel t''.tail st
        (true, r.2.1, r.2.2)
      else (false, t, st)

/-- The symbol entry core of CheckDefinition (palx.c lines 3361-3369):
a "name=expr" line defines an equate on pass 1 (an already defined name
becomes multiply defined, value untouched) and only checks it on pass
2. -/
def defineEquate (name : String) (nValue : Nat) (st : PalxState) : PalxState :=
  let (sym, st) := lookupCreate name st
  if st.nPass = 1 then
    if sym.nType = .SF_UDF then updateSym name ⟨.SF_EQU, nValue⟩ st
    else updateSym name ⟨.SF_MDF, sym.bin⟩ st
  else
    if sym.nType ≠ .SF_EQU then Flag ER_SYM st else st

/-- DotIFDEF from palx.c, up to the branch decision handed to
DoConditional: scan the symbol name (a failed scan flags a syntax error
and assembles nothing), then assemble the bracketed block exactly when
the name is found in the symbol table (LookupSymbol with fEnter false).
some true means DoConditional assembles the block, some false means it
skips it balancing nested brackets, none means the error return. -/
def dotIFDEFTest (t : List Char) (st : PalxState) :
    Option Bool × List Char × PalxState :=
  match scanName t with
  | (none, t) => (none, t, Flag ER_SYN st)
  | (some name, t) => (some (lookupNoCreate name st).isSome, t, st)

/-- DotIFNDEF from palx.c: the same with the sense of the test
reversed. -/
def dotIFNDEFTest (t : List Char) (st : PalxState) :
    Option Bool × List Char × PalxState :=
  match scanName t with
  | (none, t) => (none, t, Flag ER_SYN st)
  | (some name, t) => (some (lookupNoCreate name st).isNone, t, st)

/-- Expressions of the statement level model of Assemble: a constant, or
a literal [c] holding a constant.  (This is the fragment the pass trace
claim is settled over; a literal evaluates through internLiteral and
yields the pool address.) -/
inductive PExpr where
  | const (n : Nat)
  | lit (n : Nat)
  deriving DecidableEq, Repr

/-- Evaluate a model expression: a literal interns its value in the
current pool exactly as EvaluateLiteral does. -/
def evalPExpr : PExpr → PalxState → Bool × Nat × PalxState
  | .const n, st => (true, n, st)
  | .lit n, st => internLiteral n st

/-- One source statement of the statement level model: a code
generating line, .BLOCK, .ORG, .PAGE (no operand), .END, a label
definition, or an equate. -/
inductive Stmt where
  | codeLine (e : PExpr)
  | blockStmt (e : PExpr)
  | orgStmt (e : PExpr)
  | pageStmt
  | endStmt
  | labelStmt (name : String)
  | equateStmt (name : String) (e : PExpr)
  deriving DecidableEq, Repr

/-- The bitmap marking loop of DotBLOCK. -/
def markRange : Nat → Nat → PalxState → PalxState
  | _, 0, st => st
  | a, k + 1, st => markRange (a + 1) k (markBitMap st.nField a st)

/-- One statement of Assemble and the pseudo op handlers it dispatches
to, at statement granularity:
codeLine is Assemble lines 3492-3498 (pass 2 evaluates the expression,
flags X on failure and outputs the word; pass 1 only increments the PC);
blockStmt is DotBLOCK (evaluated on both passes, clamped against the
literal base, bitmap marked under pass 2);
orgStmt is DotORG; pageStmt is DotPAGE with no operand; endStmt is
DotEND (advance to the next page only if literals are pending);
labelStmt and equateStmt are CheckLabel and CheckDefinition (the
equate expression is evaluated on both passes). -/
def assembleStmt (st : PalxState) : Stmt → PalxState
  | .codeLine e =>
    if st.nPass = 2 then
      let (ok, v, st) := evalPExpr e st
      let st := if ok then st else Flag ER_SYN st
      outputCode v st
    else { st with nPC := (st.nPC + 1) % 65536 }
  | .blockStmt e =>
    let (ok, v, st) := evalPExpr e st
    let nLen := if ok then v else 0
    let (nLen, st) :=
      if st.nLiteralBase < st.nPC + nLen then
        ((if st.nPC < st.nLiteralBase then st.nLiteralBase - st.nPC else 0),
         Flag ER_PAF st)
      else (nLen, st)
    let st := if st.nPass = 2 then markRange st.nPC nLen st else st
    { st with nPC := (st.nPC + nLen) % 65536 }
  | .orgStmt e =>
    let (ok, v, st) := evalPExpr e st
    if ok then (setPC v st).2 else Flag ER_SYN st
  | .pageStmt => (setPC (Nat.land (st.nPC + 0o177) 0o7600) st).2
  | .endStmt =>
    if st.nLiteralBase % 128 ≠ 0 then
      (setPC (Nat.land (st.nPC + 0o177) 0o7600) st).2
    else st
  | .labelStmt name => defineLabel name st
  | .equateStmt name e =>
    let (_, v, st) := evalPExpr e st
    defineEquate name v st

/-- Run a statement list, collecting the location counter value after
each statement (the location counter trace). -/
def runStmts : List Stmt → PalxState → List Nat × PalxState
  | [], st => ([], st)
  | s :: rest, st =>
    let st' := assembleStmt st s
    let r := runStmts rest st'
    (st'.nPC :: r.1, r.2)

/-- The two pass control flow of main/Pass: pass 1 from the initialized
globals, then pass 2 over the same source with the per pass
initialization applied to the pass 1 final state (the symbol table, the
bitmap and the run options carry over).  The result is the pair of
location counter traces. -/
def assembleTwice (prog : List Stmt) : List Nat × List Nat :=
  let st0 := passInit 1 initState
  let r1 := runStmts prog st0
  let r2 := runStmts prog (passInit 2 r1.2)
  (r1.1, r2.1)

/-- A model expression free of literal operands. -/
def noLitExpr : PExpr → Bool
  | .const _ => true
  | .lit _ => false

/-- A statement free of literal operands. -/
def noLitStmt : Stmt → Bool
  | .codeLine e => noLitExpr e
  | .blockStmt e => noLitExpr e
  | .orgStmt e => noLitExpr e
  | .pageStmt => true
  | .endStmt => true
  | .labelStmt _ => true
  | .equateStmt _ e => noLitExpr e

/-- The side condition under which the pass traces coincide: no
statement carries a literal operand, and no code word is ever emitted
with the location counter at or past the literal base (so the PC never
flows across a page boundary).  The check runs over the pass 1
semantics. -/
def safeRun : List Stmt → PalxState → Bool
  | [], _ => true
  | s :: rest, st =>
    (match s with
     | .codeLine _ => decide (st.nPC < st.nLiteralBase)
     | _ => true) &&
    noLitStmt s && safeRun rest (assembleStmt st s)

/-- The state at the start of pass 1 processing. -/
def pass1State : PalxState := passInit 1 initState

/-- The state at the start of pass 2 processing of a run whose pass 1
found no user symbols. -/
def pass2State : PalxState := passInit 2 initState

/-! ### Frame facts about the primitive state operations -/

theorem Flag_symbols (ch : Char) (st : PalxState) :
    (Flag ch st).symbols = st.symbols := by
  simp only [Flag]; split_ifs <;> rfl

theorem Flag_nPC (ch : Char) (st : PalxState) : (Flag ch st).nPC = st.nPC := by
  simp only [Flag]; split_ifs <;> rfl

theorem Flag_nLiteralBase (ch : Char) (st : PalxState) :
    (Flag ch st).nLiteralBase = st.nLiteralBase := by
  simp only [Flag]; split_ifs <;> rfl

theorem Flag_nPass (ch : Char) (st : PalxState) : (Flag ch st).nPass = st.nPass := by
  simp only [Flag]; split_ifs <;> rfl

theorem Flag_nField (ch : Char) (st : PalxState) : (Flag ch st).nField = st.nField := by
  simp only [Flag]; split_ifs <;> rfl

theorem Flag_anLiteralData (ch : Char) (st : PalxState) :
    (Flag ch st).anLiteralData = st.anLiteralData := by
  simp only [Flag]; split_ifs <;> rfl

theorem Flag_emitted (ch : Char) (st : PalxState) :
    (Flag ch st).emitted = st.emitted := by
  simp only [Flag]; split_ifs <;> rfl

theorem punch_fields (a c : Nat) (st : PalxState) :
    (punch a c st).nPC = st.nPC ∧ (punch a c st).nLiteralBase = st.nLiteralBase ∧
    (punch a c st).nPass = st.nPass ∧ (punch a c st).nField = st.nField ∧
    (punch a c st).anLiteralData = st.anLiteralData ∧
    (punch a c st).symbols = st.symbols ∧
    (punch a c st).szErrorFlags = st.szErrorFlags ∧
    (punch a c st).emitted = st.emitted ++ [(a, c)] :=
  ⟨rfl, rfl, rfl, rfl, rfl, rfl, rfl, rfl⟩

theorem markBitMap_fields (f a : Nat) (st : PalxState) :
    (markBitMap f a st).nPC = st.nPC ∧
    (markBitMap f a st).nLiteralBase = st.nLiteralBase ∧
    (markBitMap f a st).nPass = st.nPass ∧
    (markBitMap f a st).nField = st.nField ∧
    (markBitMap f a st).anLiteralData = st.anLiteralData ∧
    (markBitMap f a st).symbols = st.symbols ∧
    (markBitMap f a st).emitted = st.emitted := by
  simp only [markBitMap]
  split_ifs <;>
    simp [Flag_nPC, Flag_nLiteralBase, Flag_nPass, Flag_nField,
      Flag_anLiteralData, Flag_symbols, Flag_emitted]

theorem dumpLoop_fields (k : Nat) : ∀ (loc : Nat) (st : PalxState),
    (dumpLoop loc k st).nPC = st.nPC ∧
    (dumpLoop loc k st).nLiteralBase = st.nLiteralBase ∧
    (dumpLoop loc k st).nPass = st.nPass ∧
    (dumpLoop loc k st).anLiteralData = st.anLiteralData := by
  induction k with
  | zero => intro loc st; exact ⟨rfl, rfl, rfl, rfl⟩
  | succ k ih =>
    intro loc st
    have hp := punch_fields loc (st.anLiteralData.getD (loc % 128) 0) st
    have hm := markBitMap_fields
      (punch loc (st.anLiteralData.getD (loc % 128) 0) st).nField loc
      (punch loc (st.anLiteralData.getD (loc % 128) 0) st)
    have hi := ih (loc + 1)
      (markBitMap (punch loc (st.anLiteralData.getD (loc % 128) 0) st).nField loc
        (punch loc (st.anLiteralData.getD (loc % 128) 0) st))
    simp only [dumpLoop]
    exact ⟨hi.1.trans (hm.1.trans hp.1),
           hi.2.1.trans (hm.2.1.trans hp.2.1),
           hi.2.2.1.trans (hm.2.2.1.trans hp.2.2.1),
           hi.2.2.2.trans (hm.2.2.2.2.1.trans hp.2.2.2.2.1)⟩

theorem dumpLiterals_fields (st : PalxState) :
    (dumpLiterals st).nPC = st.nPC ∧
    (dumpLiterals st).nLiteralBase = st.nLiteralBase ∧
    (dumpLiterals st).nPass = st.nPass ∧
    (dumpLiterals st).anLiteralData = st.anLiteralData := by
  simp only [dumpLiterals]
  split_ifs with h
  · exact ⟨rfl, rfl, rfl, rfl⟩
  · exact dumpLoop_fields _ _ _

/-! ### C4: what the pass controller resets and what it preserves -/

/-- A plausible end-of-pass-1 state: the source selected field 3 and the
6120 processor, suppressed P errors with .NOWARN, and pass 1 marked a
bitmap bit. -/
def endOfPass1Example : PalxState :=
  { pass1State with nField := 3, nCPU := 6120, szIgnoredErrors := [ER_PAF],
                    abBitMap := [0o200] }

/-- C4 as stated is false: the pass controller DOES reset the current
field, the processor variant and the ignored-error set at the start of
pass 2 (Pass assigns nField = 0, nCPU = 0 and clears szIgnoredErrors),
and it does NOT reset the bitmap (which is cleared once in main, before
pass 1).  At the concrete end-of-pass-1 state above, field 3, CPU 6120
and the ignored set are all wiped while the bitmap mark survives into
pass 2. -/
theorem C4_counterexample :
    (passInit 2 endOfPass1Example).nField ≠ endOfPass1Example.nField ∧
    (passInit 2 endOfPass1Example).nCPU ≠ endOfPass1Example.nCPU ∧
    (passInit 2 endOfPass1Example).szIgnoredErrors ≠
      endOfPass1Example.szIgnoredErrors ∧
    (passInit 2 endOfPass1Example).abBitMap = [0o200] := by
  refine ⟨?_, ?_, ?_, rfl⟩ <;> decide

/-- C4 amended: across the two passes the listing-page geometry, the
OS8/ASR options, the symbol table, the bitmap and the emitted output
persist (Pass does not touch them), while the pass controller resets the
current field, processor variant and ignored-error set to their defaults
at the start of each pass, together with the pass-local state: the
location counter, literal pool base, macro-expansion stack, generated
label counter, error flags and counters. -/
theorem C4_pass_frame (g : PalxState) :
    (passInit 2 g).nLinesPerPage = g.nLinesPerPage ∧
    (passInit 2 g).nColumnsPerPage = g.nColumnsPerPage ∧
    (passInit 2 g).symbols = g.symbols ∧
    (passInit 2 g).fOS8SIXBIT = g.fOS8SIXBIT ∧
    (passInit 2 g).fASCII8BIT = g.fASCII8BIT ∧
    (passInit 2 g).abBitMap = g.abBitMap ∧
    (passInit 2 g).emitted = g.emitted ∧
    (passInit 2 g).nField = 0 ∧
    (passInit 2 g).nCPU = 0 ∧
    (passInit 2 g).szIgnoredErrors = [] ∧
    (passInit 2 g).nPC = 0o200 ∧
    (passInit 2 g).nLiteralBase = 0o400 ∧
    (passInit 2 g).pCurrentMacros = [] ∧
    (passInit 2 g).nGeneratedLabel = 0 ∧
    (passInit 2 g).szErrorFlags = [] ∧
    (passInit 2 g).nErrorCount = 0 ∧
    (passInit 2 g).nSourceLine = 0 ∧
    (passInit 2 g).nPass = 2 :=
  ⟨rfl, rfl, rfl, rfl, rfl, rfl, rfl, rfl, rfl, rfl, rfl, rfl, rfl, rfl,
   rfl, rfl, rfl, rfl⟩

/-! ### C10: .IFDEF and .IFNDEF test bare presence in the symbol table -/

/-- C10: .IFDEF assembles its block exactly when the scanned name is
present in the symbol table, whatever its record holds (the test is
LookupSymbol returning non NULL, with no look at the type tag), and
.IFNDEF exactly when it is absent; a name that was merely referenced
earlier (and therefore entered as undefined by EvaluateSymbol via
LookupSymbol with fEnter true) counts as defined; a built-in opcode name
such as TAD counts as defined. -/
theorem C10_ifdef :
    (∀ (st : PalxState) (t rest : List Char) (name : String),
       scanName t = (some name, rest) →
       ((dotIFDEFTest t st).1 = some true ↔
         (lookupNoCreate name st).isSome = true)) ∧
    (∀ (st : PalxState) (t rest : List Char) (name : String),
       scanName t = (some name, rest) →
       ((dotIFNDEFTest t st).1 = some true ↔ lookupNoCreate name st = none)) ∧
    (∀ (fuel : Nat) (st : PalxState) (t : List Char) (name : String),
       lookupNoCreate name st = none →
       (lookupNoCreate name (evaluateSymbol (fuel + 1) name t st).st).isSome =
         true) ∧
    (dotIFDEFTest ("TAD X\n".data) pass2State).1 = some true ∧
    (dotIFDEFTest ("FOO\n".data) pass2State).1 = some false ∧
    (dotIFNDEFTest ("FOO\n".data) pass2State).1 = some true := by
  refine ⟨?_, ?_, ?_, by decide, by decide, by decide⟩
  · intro st t rest name h
    simp [dotIFDEFTest, h]
  · intro st t rest name h
    simp [dotIFNDEFTest, h, Option.isNone_iff_eq_none]
  · intro fuel st t name h
    simp only [evaluateSymbol, lookupCreate, lookupNoCreate] at h ⊢
    rw [h]
    simp [Flag_symbols, lookupNoCreate]

/-- Witness for C10: the equivalence applied to the concrete argument
text "CLA", a built-in opcode name, in the startup table. -/
theorem C10_ifdef_witness :
    (dotIFDEFTest ("CLA\n".data) pass2State).1 = some true :=
  (C10_ifdef.1 pass2State ("CLA\n".data) ("\n".data) "CLA" (by decide)).mpr
    (by decide)

/-! ### C2: what the evaluator does on erroneous expressions -/

/-- A pass 2 state whose symbol table is empty (no user symbol U). -/
def emptyTabPass2 : PalxState := { pass2State with symbols := [] }

/-- C2 as stated is false: evaluating 1+U+2 with U undefined flags the
line with U and substitutes zero for U, but it does NOT consume and fold
the remaining operands - EvaluateSymbol returns false, the operand
failure aborts EvaluateExpression, the result is the partial fold 1 (not
(1+0)+2 = 3) and the text "+2..." is left unconsumed. -/
theorem C2_counterexample :
    (evaluateExpression 8 ("1+U+2\n".data) emptyTabPass2).ok = false ∧
    (evaluateExpression 8 ("1+U+2\n".data) emptyTabPass2).val = 1 ∧
    (evaluateExpression 8 ("1+U+2\n".data) emptyTabPass2).rest = "+2\n".data ∧
    (evaluateExpression 8 ("1+U+2\n".data) emptyTabPass2).st.szErrorFlags =
      [ER_UDF] := by
  refine ⟨?_, ?_, ?_, ?_⟩ <;> decide

/-- The seven expression operator characters. -/
theorem operatorChar_cases (c : Char) (h : isOperatorChar c = true) :
    c = '-' ∨ c = '+' ∨ c = '&' ∨ c = '|' ∨ c = '*' ∨ c = '/' ∨ c = '%' := by
  have := h
  simp only [isOperatorChar, Bool.or_eq_true, decide_eq_true_eq] at this
  tauto

/-- C2 amended: each error kind flags the line with its code and the
erroneous construct produces the value zero, but the evaluation of the
containing expression then stops, returning failure with the value
folded so far and the remaining operand text unconsumed (recovery
happens at the statement level, which flags X and continues with the
next line).  In order: an undefined symbol flags U with value 0; a
multiply defined symbol flags M with value 0; an unparseable operand
character flags X with value 0 and consumes nothing; a malformed number
(decimal digits with an octal suffix) flags N with value 0; a range
error (CDF 10, field 8 > 7) flags A with value 0 and fails; and an
operand failure inside the operator loop aborts the fold, returning the
accumulated value. -/
theorem C2_error_recovery :
    (∀ (fuel : Nat) (st : PalxState) (t : List Char) (name : String) (b : Nat),
       st.symbols.lookup name = some ⟨.SF_UDF, b⟩ →
       evaluateSymbol (fuel + 1) name t st = ⟨false, 0, t, Flag ER_UDF st⟩) ∧
    (∀ (fuel : Nat) (st : PalxState) (t : List Char) (name : String) (b : Nat),
       st.symbols.lookup name = some ⟨.SF_MDF, b⟩ →
       evaluateSymbol (fuel + 1) name t st = ⟨false, 0, t, Flag ER_MDF st⟩) ∧
    (∀ (fuel : Nat) (st : PalxState) (t : List Char),
       evaluateOperand (fuel + 1) ('?' :: t) st =
         ⟨false, 0, '?' :: t, Flag ER_SYN st⟩) ∧
    (∀ (fuel : Nat) (st : PalxState) (t : List Char),
       evaluateOperand (fuel + 1) ('9' :: 'B' :: t) st =
         ⟨false, 0, 'B' :: t, Flag ER_IFN st⟩) ∧
    ((evaluateExpression 20 ("CDF 10\n".data) pass2State).ok = false ∧
     (evaluateExpression 20 ("CDF 10\n".data) pass2State).val = 0 ∧
     (evaluateExpression 20 ("CDF 10\n".data) pass2State).st.szErrorFlags =
       [ER_RAN]) ∧
    (∀ (fuel v : Nat) (c : Char) (t : List Char) (st : PalxState),
       isOperatorChar c = true →
       (evaluateOperand fuel t st).ok = false →
       exprLoop (fuel + 1) v (c :: t) st =
         ⟨false, v, (evaluateOperand fuel t st).rest,
          (evaluateOperand fuel t st).st⟩) := by
  refine ⟨?_, ?_, ?_, ?_, ⟨by decide, by decide, by decide⟩, ?_⟩
  · intro fuel st t name b h
    simp only [evaluateSymbol, lookupCreate]
    rw [h]
  · intro fuel st t name b h
    simp only [evaluateSymbol, lookupCreate]
    rw [h]
  · intro fuel st t
    rfl
  · intro fuel st t
    rfl
  · intro fuel v c t st h h2
    rcases operatorChar_cases c h with rfl | rfl | rfl | rfl | rfl | rfl | rfl <;>
      simp [exprLoop, spanWhite, peek, isOperatorChar, isspaceC, h2]

/-- A state containing the user symbol U, referenced but never defined. -/
def undefinedUState : PalxState :=
  { emptyTabPass2 with symbols := [("U", ⟨.SF_UDF, 0⟩)] }

/-- Witness for C2 amended: the undefined-symbol case applied to the
concrete symbol U. -/
theorem C2_error_recovery_witness :
    evaluateSymbol 3 "U" ("\n".data) undefinedUState =
      ⟨false, 0, "\n".data, Flag ER_UDF undefinedUState⟩ :=
  C2_error_recovery.1 2 undefinedUState ("\n".data) "U" 0 (by decide)

/-! ### C7: when a literal allocation is refused -/

/-- The scan loop of EvaluateLiteral is a find over the live pool
addresses. -/
theorem findLoop_eq_find? (pool : List Nat) (v : Nat) :
    ∀ (k loc : Nat), findLoop pool v loc k =
      (List.range' loc k).find? (fun a => pool.getD (a % 128) 0 == v) := by
  intro k
  induction k with
  | zero => intro loc; rfl
  | succ k ih =>
    intro loc
    rw [List.range'_succ]
    simp only [findLoop]
    by_cases h : pool.getD (loc % 128) 0 = v
    · rw [if_pos h, List.find?_cons_of_pos _ (by simpa using h)]
    · rw [if_neg h, List.find?_cons_of_neg _ (by simpa using h), ih]

/-- The dedup search of EvaluateLiteral finds the first live pool entry
holding the value, if any. -/
theorem findLiteral_eq (st : PalxState) (v : Nat) :
    findLiteral st v = (liveAddrs st).find? (fun a => poolVal st a == v) :=
  findLoop_eq_find? st.anLiteralData v _ _

/-- No live pool entry holds the value exactly when the dedup search
fails. -/
theorem findLiteral_eq_none_iff (st : PalxState) (v : Nat) :
    findLiteral st v = none ↔ ∀ a ∈ liveAddrs st, poolVal st a ≠ v := by
  rw [findLiteral_eq]
  simp [List.find?_eq_none]

/-- The state after emitting 128 code words from the start of pass 2:
the page at 0200 is exactly full and the PC sits at the literal base. -/
def fullPageState : PalxState :=
  List.foldl (fun s c => outputCode c s) pass2State (List.replicate 128 0)

/-- The state after .ORG 0377 on a fresh pass 2: the PC is at the last
word of the page, the literal base at 0400, and nothing has been
emitted. -/
def orgNearTopState : PalxState := (setPC 0o377 pass2State).2

/-- C7 as stated is false: a literal request is refused whenever the new
slot (nLiteralBase - 1) would lie at or below the current PC, one word
earlier than any overlap with code already emitted.  Concretely, after
.ORG 0377 on a fresh pass 2 (nothing emitted at all, PC = 0377, literal
base = 0400), the request for [5] is refused with a P error even though
the slot 0377 overlaps no emitted code. -/
theorem C7_counterexample :
    (internLiteral 5 orgNearTopState).1 = false ∧
    (internLiteral 5 orgNearTopState).2.2.szErrorFlags = [ER_PAF] ∧
    orgNearTopState.emitted = [] ∧ orgNearTopState.nPC = 0o377 ∧
    orgNearTopState.nLiteralBase = 0o400 := by
  refine ⟨?_, ?_, ?_, ?_, ?_⟩ <;> decide

set_option maxRecDepth 40000 in
/-- C7 amended: a literal request that finds no matching live entry
allocates the next free slot downward from the top of the page, and is
refused with a page-full error (allocating nothing and yielding zero)
exactly when the new slot would lie at or below the current location
counter, i.e. when nLiteralBase <= nPC + 1 - which covers any overlap
with code already emitted and additionally the word at the current PC,
where the instruction being assembled is about to go.  In particular,
after a page has been filled with exactly 128 code words the next
literal request flags P instead of overwriting code. -/
theorem C7_pool_refusal :
    (∀ (st : PalxState) (v : Nat), (∀ a ∈ liveAddrs st, poolVal st a ≠ v) →
       (((internLiteral v st).1 = false) ↔ st.nLiteralBase ≤ st.nPC + 1)) ∧
    (∀ (st : PalxState) (v : Nat), (∀ a ∈ liveAddrs st, poolVal st a ≠ v) →
       st.nLiteralBase ≤ st.nPC + 1 →
       internLiteral v st = (false, 0, Flag ER_PAF st)) ∧
    (∀ (st : PalxState) (v : Nat), (∀ a ∈ liveAddrs st, poolVal st a ≠ v) →
       st.nPC + 1 < st.nLiteralBase →
       internLiteral v st = (true, st.nLiteralBase - 1,
         { st with nLiteralBase := st.nLiteralBase - 1,
                   anLiteralData :=
                     st.anLiteralData.set ((st.nLiteralBase - 1) % 128) v })) ∧
    ((internLiteral 5 fullPageState).1 = false ∧
     'P' ∈ (internLiteral 5 fullPageState).2.2.szErrorFlags ∧
     fullPageState.nPC = 0o400 ∧ fullPageState.emitted.length = 128) := by
  refine ⟨?_, ?_, ?_, ?_, ?_, ?_, ?_⟩
  · intro st v h
    rw [← findLiteral_eq_none_iff] at h
    simp only [internLiteral, h]
    split_ifs with h2
    · simpa using h2
    · simpa using h2
  · intro st v h h2
    rw [← findLiteral_eq_none_iff] at h
    simp only [internLiteral, h]
    rw [if_pos h2]
  · intro st v h h2
    rw [← findLiteral_eq_none_iff] at h
    simp only [internLiteral, h]
    rw [if_neg (by omega)]
  · decide
  · decide
  · decide
  · decide

/-- Witness for C7 amended: the refusal case applied at the concrete
post-.ORG state (empty pool on the page, base at PC + 1). -/
theorem C7_pool_refusal_witness :
    internLiteral 5 orgNearTopState = (false, 0, Flag ER_PAF orgNearTopState) :=
  C7_pool_refusal.2.1 orgNearTopState 5 (by decide) (by decide)

/-! ### C6: the arithmetic of the expression evaluator -/

/-- Masking with 07777 is reduction mod 4096. -/
theorem land_7777_eq_mod (x : Nat) : Nat.land x 0o7777 = x % 4096 := by
  have h := Nat.and_pow_two_sub_one_eq_mod x 12
  norm_num at h
  exact h

/-- C6: every binary operator of the expression evaluator yields its
mathematical result reduced mod 4096 (for / and % with a nonzero
divisor; dividing by zero is undefined behaviour in the C source);
unary tilde is the ones complement masked to 12 bits (4095 minus the
value mod 4096) and unary minus is the two's complement negation (4096
minus the value mod 4096, again reduced); and the concrete evaluator
runs below exhibit each operator on source text (numbers are octal:
3-5 gives 7776, ~0 gives 7777, -1 gives 7777, 17/2 gives 7, 17%2 gives
1, 6&3 gives 2, 6|1 gives 7, and 1000*1000 wraps to 0). -/
theorem C6_arithmetic :
    (∀ a b : Nat,
       applyOperator '+' a b = (a + b) % 4096 ∧
       ((applyOperator '-' a b : Nat) : Int) = ((a : Int) - b) % 4096 ∧
       applyOperator '&' a b = Nat.land a b % 4096 ∧
       applyOperator '|' a b = Nat.lor a b % 4096 ∧
       applyOperator '*' a b = a * b % 4096 ∧
       (b ≠ 0 → applyOperator '/' a b = a / b % 4096 ∧
                applyOperator '%' a b = a % b % 4096)) ∧
    (∀ v : Nat, complement12 v = 4095 - v % 4096 ∧
                negate12 v = (4096 - v % 4096) % 4096) ∧
    ((evaluateExpression 20 ("3-5;".data) pass2State).val = 0o7776 ∧
     (evaluateExpression 20 ("~0;".data) pass2State).val = 0o7777 ∧
     (evaluateExpression 20 ("-1;".data) pass2State).val = 0o7777 ∧
     (evaluateExpression 20 ("17/2;".data) pass2State).val = 7 ∧
     (evaluateExpression 20 ("17%2;".data) pass2State).val = 1 ∧
     (evaluateExpression 20 ("6&3;".data) pass2State).val = 2 ∧
     (evaluateExpression 20 ("6|1;".data) pass2State).val = 7 ∧
     (evaluateExpression 20 ("1000*1000;".data) pass2State).val = 0) := by
  refine ⟨?_, ?_, ?_⟩
  · intro a b
    refine ⟨?_, ?_, ?_, ?_, ?_, fun _ => ⟨?_, ?_⟩⟩
    · show mask12 ((a : Int) + b) = (a + b) % 4096
      unfold mask12; omega
    · show ((mask12 ((a : Int) + (4096 - (b : Int)))) : Int) =
        ((a : Int) - b) % 4096
      unfold mask12; omega
    · show Nat.land (Nat.land a b) 0o7777 = Nat.land a b % 4096
      exact land_7777_eq_mod _
    · show Nat.land (Nat.lor a b) 0o7777 = Nat.lor a b % 4096
      exact land_7777_eq_mod _
    · show mask12 ((a : Int) * b) = a * b % 4096
      unfold mask12
      have h : (a : Int) * b = ((a * b : Nat) : Int) := by push_cast; ring
      rw [h]; omega
    · show Nat.land (a / b) 0o7777 = a / b % 4096
      exact land_7777_eq_mod _
    · show Nat.land (a % b) 0o7777 = a % b % 4096
      exact land_7777_eq_mod _
  · intro v
    constructor
    · show mask12 (-(v : Int) - 1) = 4095 - v % 4096
      unfold mask12; omega
    · show mask12 (4096 - (v : Int)) = (4096 - v % 4096) % 4096
      unfold mask12; omega
  · refine ⟨?_, ?_, ?_, ?_, ?_, ?_, ?_, ?_⟩ <;> decide

/-- Witness for C6: the division and modulus cases applied at 17 and 2
octal (15 and 2), discharging the nonzero divisor hypothesis. -/
theorem C6_arithmetic_witness :
    applyOperator '/' 0o17 2 = 0o17 / 2 % 4096 ∧
    applyOperator '%' 0o17 2 = 0o17 % 2 % 4096 :=
  (C6_arithmetic.1 0o17 2).2.2.2.2.2 (by decide)

/-! ### C1: literal pool interning, deduplication and flushing -/

/-- The emission loop of DumpLiterals punches exactly the pool words at
the scanned addresses, in order, appended to the output so far. -/
theorem dumpLoop_emitted (k : Nat) : ∀ (loc : Nat) (st : PalxState),
    (dumpLoop loc k st).emitted =
      st.emitted ++ (List.range' loc k).map
        (fun a => (a, st.anLiteralData.getD (a % 128) 0)) := by
  induction k with
  | zero => intro loc st; simp [dumpLoop]
  | succ k ih =>
    intro loc st
    simp only [dumpLoop]
    rw [List.range'_succ]
    have hp := punch_fields loc (st.anLiteralData.getD (loc % 128) 0) st
    have hm := markBitMap_fields
      (punch loc (st.anLiteralData.getD (loc % 128) 0) st).nField loc
      (punch loc (st.anLiteralData.getD (loc % 128) 0) st)
    rw [ih]
    rw [hm.2.2.2.2.1.trans hp.2.2.2.2.1, hm.2.2.2.2.2.2.trans hp.2.2.2.2.2.2.2]
    simp

/-- The pool data words are untouched by the flush. -/
theorem dumpLiterals_emitted (st : PalxState) (h : st.nPass = 2) :
    (dumpLiterals st).emitted =
      st.emitted ++ (liveAddrs st).map (fun a => (a, poolVal st a)) := by
  simp only [dumpLiterals, h]
  rw [if_neg (by simp)]
  exact dumpLoop_emitted _ _ _

/-- Reading back a just written pool slot. -/
theorem getD_set_self (l : List Nat) (i v : Nat) (h : i < l.length) :
    (l.set i v).getD i 0 = v := by
  rw [List.getD_eq_getElem?_getD, List.getElem?_set_eq_of_lt _ h]
  rfl

/-- The first and second evaluations of the literal operand [5] on a
fresh pass 2 page. -/
def firstLit : ERes := evaluateOperand 9 ("[5];".data) pass2State

/-- The second evaluation of [5], from the state the first one left. -/
def secondLit : ERes := evaluateOperand 9 ("[5];".data) firstLit.st

/-- C1: (i) if a live pool entry on the current page holds the value,
evaluation yields that entry's address and changes nothing; (ii)
otherwise a new entry is allocated one word below the previous lowest
(nLiteralBase - 1, which is the top word of the page when the pool was
empty, base on a page boundary) and its address is yielded with the
value stored in the slot; (iii) the flush (pass 2) emits every live
entry exactly once, as a data word at its assigned address, the
addresses being distinct; (iv) concretely, [5] evaluated twice on one
page yields the address 0377 both times (the second evaluation changing
nothing), the instruction receives the pool address 0377 and not the
value 5, and the flush emits exactly the one data word (0377, 5). -/
theorem C1_literal_pool :
    (∀ (st : PalxState) (v a : Nat),
       (liveAddrs st).find? (fun x => poolVal st x == v) = some a →
       internLiteral v st = (true, a, st) ∧ a ∈ liveAddrs st ∧
       poolVal st a = v) ∧
    (∀ (st : PalxState) (v : Nat),
       (∀ a ∈ liveAddrs st, poolVal st a ≠ v) →
       st.nPC + 1 < st.nLiteralBase → st.anLiteralData.length = 128 →
       (internLiteral v st).1 = true ∧
       (internLiteral v st).2.1 = st.nLiteralBase - 1 ∧
       (internLiteral v st).2.2.nLiteralBase = st.nLiteralBase - 1 ∧
       poolVal (internLiteral v st).2.2 (st.nLiteralBase - 1) = v ∧
       (st.nLiteralBase % 128 = 0 → (st.nLiteralBase - 1) % 128 = 127)) ∧
    (∀ st : PalxState, st.nPass = 2 →
       (dumpLiterals st).emitted =
         st.emitted ++ (liveAddrs st).map (fun a => (a, poolVal st a)) ∧
       (liveAddrs st).Nodup) ∧
    (firstLit.ok = true ∧ firstLit.val = 0o377 ∧
     secondLit.ok = true ∧ secondLit.val = 0o377 ∧ secondLit.st = firstLit.st ∧
     poolVal firstLit.st 0o377 = 5 ∧
     (dumpLiterals firstLit.st).emitted = [(0o377, 5)] ∧
     (0o377 : Nat) ≠ 5) := by
  refine ⟨?_, ?_, ?_, ?_⟩
  · intro st v a h
    have he : findLiteral st v = some a := (findLiteral_eq st v).trans h
    refine ⟨?_, List.mem_of_find?_eq_some h, by simpa using List.find?_some h⟩
    simp only [internLiteral, he]
  · intro st v h h2 hlen
    have he : findLiteral st v = none := (findLiteral_eq_none_iff st v).mpr h
    simp only [internLiteral, he]
    rw [if_neg (by omega)]
    refine ⟨rfl, rfl, rfl, ?_, fun h0 => by omega⟩
    simp only [poolVal]
    exact getD_set_self _ _ _ (by rw [hlen]; exact Nat.mod_lt _ (by norm_num))
  · intro st h
    exact ⟨dumpLiterals_emitted st h, List.nodup_range' _ _⟩
  · refine ⟨?_, ?_, ?_, ?_, ?_, ?_, ?_, ?_⟩ <;> decide

/-- Witness for C1: the dedup case applied at the concrete state left by
the first evaluation of [5] - the pool already holds 5 at 0377, so a
second request yields 0377 and changes nothing. -/
theorem C1_literal_pool_witness :
    internLiteral 5 firstLit.st = (true, 0o377, firstLit.st) :=
  (C1_literal_pool.1 firstLit.st 5 0o377 (by decide)).1

/-! ### C5: label redefinition and the one-record-per-name invariant -/

/-- Overwriting a record by key rewrites what lookup returns for that
key and nothing else. -/
theorem lookup_map_update (name : String) (s : Sym) :
    ∀ l : List (String × Sym),
      (l.map fun p => if p.1 = name then (p.1, s) else p).lookup name =
        (l.lookup name).map fun _ => s := by
  intro l
  induction l with
  | nil => rfl
  | cons p t ih =>
    obtain ⟨k, y⟩ := p
    by_cases h : k = name
    · subst h
      simp [List.lookup_cons]
    · have hb : (name == k) = false := beq_eq_false_iff_ne.mpr (Ne.symm h)
      simp [List.lookup_cons, h, hb, ih]

/-- There is exactly one record per name: the names in the table are
pairwise distinct. -/
def keysNodup (st : PalxState) : Prop := (st.symbols.map Prod.fst).Nodup

/-- updateSym does not change the set of names in the table. -/
theorem keys_updateSym (name : String) (s : Sym) (st : PalxState) :
    (updateSym name s st).symbols.map Prod.fst = st.symbols.map Prod.fst := by
  simp only [updateSym, List.map_map]
  apply List.map_congr_left
  intro p _
  by_cases h : p.1 = name <;> simp [h, Function.comp]

/-- lookup-or-create keeps the names distinct: it only adds a name that
was absent. -/
theorem keysNodup_lookupCreate (name : String) (st : PalxState)
    (h : keysNodup st) : keysNodup (lookupCreate name st).2 := by
  simp only [lookupCreate]
  cases hl : st.symbols.lookup name with
  | some s => exact h
  | none =>
    simp only [keysNodup, List.map_cons, List.nodup_cons] at *
    refine ⟨?_, h⟩
    intro hmem
    rw [List.lookup_eq_none_iff] at hl
    obtain ⟨p, hp, hp2⟩ := List.mem_map.mp hmem
    simpa [hp2] using hl p hp

/-- Processing one label keeps the names distinct. -/
theorem keysNodup_defineLabel (name : String) (st : PalxState)
    (h : keysNodup st) : keysNodup (defineLabel name st) := by
  have hc := keysNodup_lookupCreate name st h
  simp only [defineLabel]
  split_ifs <;>
    simp_all [keysNodup, keys_updateSym, Flag_symbols]

/-- CheckLabel keeps the names distinct. -/
theorem keysNodup_checkLabel (fuel : Nat) : ∀ (t : List Char) (st : PalxState),
    keysNodup st → keysNodup (checkLabel fuel t st).2.2 := by
  induction fuel with
  | zero => intro t st h; exact h
  | succ fuel ih =>
    intro t st h
    simp only [checkLabel]
    cases hs : scanName t with
    | mk o rest =>
      cases o with
      | none => exact h
      | some name =>
        simp only
        split_ifs
        · exact ih _ _ (keysNodup_defineLabel _ _ h)
        · exact h

/-- A pass 1 state whose table already holds the label A at 0200. -/
def labelOnceState : PalxState :=
  { pass1State with symbols := ("A", ⟨.SF_TAG, 0o200⟩) :: pass1State.symbols }

/-- The matching pass 2 state: after pass 1 saw A: twice, A is multiply
defined. -/
def labelMDFPass2State : PalxState :=
  { pass2State with symbols := ("A", ⟨.SF_MDF, 0o200⟩) :: pass2State.symbols }

/-- C5 as stated is false in its flagging clause: processing the second
"A:" on pass 1 transitions the tag to multiply defined with the stored
value unchanged but flags NOTHING on that line (the pass 1 branch of
CheckLabel has no Flag call), and on pass 2 the same line is flagged
with the symbol-misuse code S, not with the multiply-defined code M. -/
theorem C5_counterexample :
    (checkLabel 4 ("A:\n".data) labelOnceState).2.2.szErrorFlags = [] ∧
    (checkLabel 4 ("A:\n".data) labelOnceState).2.2.symbols.lookup "A" =
      some ⟨.SF_MDF, 0o200⟩ ∧
    (checkLabel 4 ("A:\n".data) labelMDFPass2State).2.2.szErrorFlags =
      [ER_SYM] ∧
    ER_MDF ∉ (checkLabel 4 ("A:\n".data) labelMDFPass2State).2.2.szErrorFlags := by
  refine ⟨?_, ?_, ?_, ?_⟩ <;> decide

/-- C5 amended: redefining a label transitions the symbol's tag to
multiply defined and leaves its stored value unchanged, with no flag on
the redefining line during pass 1; the pass 2 walk then flags the
defining lines with the symbol-misuse code S (uses of the symbol are
what receive the multiply-defined code M, see the evaluator); and
throughout, the table keeps exactly one record per name - CheckLabel
preserves the distinctness of the stored names, which holds of the
startup table. -/
theorem C5_label_redefinition :
    (∀ (st : PalxState) (name : String) (v : Nat), st.nPass = 1 →
       st.symbols.lookup name = some ⟨.SF_TAG, v⟩ →
       defineLabel name st = updateSym name ⟨.SF_MDF, v⟩ st ∧
       (defineLabel name st).symbols.lookup name = some ⟨.SF_MDF, v⟩ ∧
       (defineLabel name st).szErrorFlags = st.szErrorFlags) ∧
    (∀ (st : PalxState) (name : String) (v : Nat), st.nPass = 2 →
       st.symbols.lookup name = some ⟨.SF_MDF, v⟩ →
       defineLabel name st = Flag ER_SYM st) ∧
    (∀ (st : PalxState) (name : String),
       keysNodup st → keysNodup (defineLabel name st)) ∧
    (∀ (fuel : Nat) (t : List Char) (st : PalxState),
       keysNodup st → keysNodup (checkLabel fuel t st).2.2) ∧
    keysNodup initState := by
  refine ⟨?_, ?_, fun st name => keysNodup_defineLabel name st,
    keysNodup_checkLabel, by simp only [keysNodup]; decide⟩
  · intro st name v h1 h2
    have hdl : defineLabel name st = updateSym name ⟨.SF_MDF, v⟩ st := by
      simp only [defineLabel, lookupCreate, h2, h1]
      rfl
    refine ⟨hdl, ?_, ?_⟩
    · rw [hdl]
      show (st.symbols.map fun p =>
        if p.1 = name then (p.1, (⟨.SF_MDF, v⟩ : Sym)) else p).lookup name = _
      rw [lookup_map_update, h2]
      rfl
    · rw [hdl]; rfl
  · intro st name v h1 h2
    simp only [defineLabel, lookupCreate, h2, h1]
    rfl

/-- Witness for C5 amended: the pass 1 redefinition case applied at the
concrete table holding the label A valued 0200. -/
theorem C5_label_redefinition_witness :
    defineLabel "A" labelOnceState =
      updateSym "A" ⟨.SF_MDF, 0o200⟩ labelOnceState :=
  (C5_label_redefinition.1 labelOnceState "A" 0o200 (by decide) (by decide)).1

/-! ### C9: strictly left-to-right evaluation, no precedence -/

/-- The four end-of-line characters. -/
theorem iseol_cases (c : Char) (h : iseol c = true) :
    c = ';' ∨ c = '>' ∨ c = EOL ∨ c = EOS := by
  have := h
  simp only [iseol, Bool.or_eq_true, decide_eq_true_eq] at this
  tauto

/-- A line whose current character is an operator or an end-of-line
character is not sitting on white space, so SpanWhite leaves it
alone. -/
theorem spanWhite_of_head (t : List Char)
    (h : isOperatorChar (peek t) = true ∨ iseol (peek t) = true) :
    spanWhite t = t := by
  cases t with
  | nil => rfl
  | cons c t =>
    rcases h with h | h
    · rcases operatorChar_cases c h with rfl | rfl | rfl | rfl | rfl | rfl | rfl <;> rfl
    · rcases iseol_cases c h with rfl | rfl | rfl | rfl <;> rfl

/-- End-of-line characters are not operators. -/
theorem not_operator_of_eol (c : Char) (h : iseol c = true) :
    isOperatorChar c = false := by
  rcases iseol_cases c h with rfl | rfl | rfl | rfl <;> rfl

/-- A character that can legally follow an operand (an operator or an
end of line) neither extends a number nor is a radix suffix. -/
theorem opOrEol_after_operand (c : Char)
    (h : isOperatorChar c = true ∨ iseol c = true) :
    isdigitC c = false ∧ toupperC c ≠ 'B' ∧ toupperC c ≠ 'D' ∧ c ≠ '.' := by
  rcases h with h | h
  · rcases operatorChar_cases c h with rfl | rfl | rfl | rfl | rfl | rfl | rfl <;>
      exact ⟨rfl, by decide, by decide, by decide⟩
  · rcases iseol_cases c h with rfl | rfl | rfl | rfl <;>
      exact ⟨rfl, by decide, by decide, by decide⟩

/-- The text "op1 operand1 op2 operand2 ..." of the tail of an
expression: each item is an operator character, the operand text, and
the operand's value. -/
def renderItems : List (Char × List Char × Nat) → List Char
  | [] => []
  | (c, s, _) :: rest => c :: (s ++ renderItems rest)

/-- The strictly left-to-right fold the evaluator's operator loop is
claimed to compute. -/
def foldOps (v : Nat) (items : List (Char × List Char × Nat)) : Nat :=
  items.foldl (fun a it => applyOperator it.1 a it.2.2) v

/-- s is an operand text with value v: wherever it appears, followed by
an operator or an end of line, EvaluateOperand consumes exactly s and
yields v without touching the state.  (Numbers are such texts; symbols
or literals, whose evaluation moves the state, are not.) -/
def ParsesOperand (s : List Char) (v : Nat) : Prop :=
  ∀ (fuel : Nat) (rest : List Char) (st : PalxState),
    isOperatorChar (peek rest) = true ∨ iseol (peek rest) = true →
    evaluateOperand (fuel + 1) (s ++ rest) st = ⟨true, v, rest, st⟩

/-- The first character of an item sequence rendering followed by an
end of line is an operator or an end of line. -/
theorem renderItems_head (items : List (Char × List Char × Nat))
    (tail : List Char)
    (hitems : ∀ it ∈ items, isOperatorChar it.1 = true)
    (htail : iseol (peek tail) = true) :
    isOperatorChar (peek (renderItems items ++ tail)) = true ∨
      iseol (peek (renderItems items ++ tail)) = true := by
  cases items with
  | nil => exact Or.inr htail
  | cons it rest =>
    obtain ⟨c, s, w⟩ := it
    left
    simpa [renderItems, peek] using hitems (c, s, w) (List.mem_cons_self _ _)

/-- One iteration of the operator loop: an operator character followed
by an operand text folds the operand in and continues. -/
theorem exprLoop_step (F v w : Nat) (c : Char) (s rest2 : List Char)
    (st : PalxState) (hc : isOperatorChar c = true)
    (hop : evaluateOperand F (s ++ rest2) st = ⟨true, w, rest2, st⟩) :
    exprLoop (F + 1) v (c :: (s ++ rest2)) st =
      exprLoop F (applyOperator c v w) rest2 st := by
  simp only [exprLoop]
  rw [spanWhite_of_head _ (Or.inl (by simpa [peek] using hc))]
  simp only [peek, hc, Bool.not_true, Bool.false_eq_true, if_false,
    List.tail_cons]
  rw [hop]
  simp

/-- The operator loop of EvaluateExpression computes the left fold of
applyOperator over the operands, consuming the whole rendered tail. -/
theorem exprLoop_fold :
    ∀ (items : List (Char × List Char × Nat)) (tail : List Char),
      iseol (peek tail) = true →
      (∀ it ∈ items, isOperatorChar it.1 = true ∧ ParsesOperand it.2.1 it.2.2) →
      ∀ (fuel v : Nat) (st : PalxState),
        exprLoop (items.length + fuel + 1) v (renderItems items ++ tail) st =
          ⟨true, foldOps v items, tail, st⟩ := by
  intro items
  induction items with
  | nil =>
    intro tail htail _ fuel v st
    simp only [renderItems, List.nil_append, List.length_nil, Nat.zero_add,
      exprLoop]
    rw [spanWhite_of_head tail (Or.inr htail)]
    simp [not_operator_of_eol _ htail, foldOps]
  | cons it items ih =>
    obtain ⟨c, s, w⟩ := it
    intro tail htail hitems fuel v st
    have hc : isOperatorChar c = true :=
      (hitems (c, s, w) (List.mem_cons_self _ _)).1
    have hop : ParsesOperand s w :=
      (hitems (c, s, w) (List.mem_cons_self _ _)).2
    have hhd := renderItems_head items tail
      (fun x hx => (hitems x (List.mem_cons_of_mem _ hx)).1) htail
    simp only [renderItems, List.length_cons, List.cons_append, List.append_assoc]
    rw [show items.length + 1 + fuel + 1 = (items.length + fuel + 1) + 1 by omega]
    rw [exprLoop_step (items.length + fuel + 1) v w c s
      (renderItems items ++ tail) st hc
      (hop (items.length + fuel) (renderItems items ++ tail) st hhd)]
    rw [ih tail htail (fun x hx => hitems x (List.mem_cons_of_mem _ hx)) fuel
      (applyOperator c v w) st]
    simp [foldOps]

/-- C9: expression evaluation is strictly left-to-right with no operator
precedence - the result of "e1 op1 e2 op2 e3 ..." is the left fold of
the operator applications; in particular 1+2*3 evaluates to (1+2)*3 = 9
(11 octal), not 7. -/
theorem C9_left_to_right :
    (∀ (s0 : List Char) (v0 : Nat) (items : List (Char × List Char × Nat))
       (tail : List Char) (st : PalxState) (fuel : Nat),
       ParsesOperand s0 v0 →
       (∀ it ∈ items, isOperatorChar it.1 = true ∧ ParsesOperand it.2.1 it.2.2) →
       iseol (peek tail) = true →
       evaluateExpression (items.length + fuel + 2)
           (s0 ++ (renderItems items ++ tail)) st =
         ⟨true, foldOps v0 items, tail, st⟩) ∧
    (evaluateExpression 9 ("1+2*3\n".data) pass2State).val = 9 ∧
    (evaluateExpression 9 ("1+2*3\n".data) pass2State).val =
      applyOperator '*' (applyOperator '+' 1 2) 3 := by
  refine ⟨?_, by decide, by decide⟩
  intro s0 v0 items tail st fuel h0 hitems htail
  have hhd := renderItems_head items tail (fun x hx => (hitems x hx).1) htail
  rw [show items.length + fuel + 2 = (items.length + fuel + 1) + 1 by omega]
  simp only [evaluateExpression]
  rw [show items.length + fuel + 1 = (items.length + fuel) + 1 by omega]
  rw [h0 (items.length + fuel) (renderItems items ++ tail) st hhd]
  simp only [Bool.not_true, Bool.false_eq_true, if_false]
  exact exprLoop_fold items tail htail hitems fuel v0 st

/-- SpanWhite passes a non white space character through. -/
theorem spanWhite_cons_nospace (c : Char) (t : List Char)
    (h : isspaceC c = false) : spanWhite (c :: t) = c :: t := by
  simp [spanWhite, h]

/-- The digit loop of ScanNumber stops at a non digit. -/
theorem scanDigits_stop (rest : List Char) (h : isdigitC (peek rest) = false) :
    ∀ (o dd : Nat) (f : Bool), scanDigits rest o dd f = (o, dd, f, rest) := by
  cases rest with
  | nil => intro o dd f; rfl
  | cons c t =>
    intro o dd f
    simp only [peek] at h
    simp [scanDigits, h]

/-- ScanNumber on a single octal digit followed by a non-number
character: the digit's value, default octal radix, nothing else
consumed. -/
theorem scanNumber_digit (d : Char) (rest : List Char) (st : PalxState)
    (hsp : isspaceC d = false) (hd : isdigitC d = true) (h7 : ¬ ('7' < d))
    (h1 : isdigitC (peek rest) = false) (h2 : toupperC (peek rest) ≠ 'B')
    (h3 : toupperC (peek rest) ≠ 'D') (h4 : peek rest ≠ '.') :
    scanNumber (d :: rest) st = (some ((d.toNat - 48) % 65536), rest, st) := by
  simp only [scanNumber]
  rw [spanWhite_cons_nospace d rest hsp]
  simp only [scanDigits, hd, if_true, reduceIte]
  rw [scanDigits_stop rest h1]
  simp only [Nat.zero_shiftLeft, Nat.zero_mul, Nat.zero_add,
    Bool.false_or]
  rw [show Nat.lor 0 (d.toNat - 48) = d.toNat - 48 from Nat.zero_or _]
  rw [if_neg (fun he => by
    have := congrArg List.length he
    simp at this)]
  rw [if_neg h2, if_neg (by tauto)]
  simp [h7]

/-- EvaluateOperand on a digit-initial text is the number scan. -/
theorem evaluateOperand_digit (fuel : Nat) (d : Char) (rest rest' : List Char)
    (st st' : PalxState) (v : Nat)
    (hsp : isspaceC d = false)
    (hplus : d ≠ '+') (hminus : d ≠ '-') (htilde : d ≠ '~')
    (hparen : d ≠ '(') (hstar : d ≠ '*') (hdot : d ≠ '.')
    (hbrack : d ≠ '[') (hquote : d ≠ '\"')
    (hd : isdigitC d = true)
    (hnum : scanNumber (d :: rest) st = (some v, rest', st')) :
    evaluateOperand (fuel + 1) (d :: rest) st = ⟨true, v, rest', st'⟩ := by
  simp only [evaluateOperand]
  rw [spanWhite_cons_nospace d rest hsp]
  simp [peek, hplus, hminus, htilde, hparen, hstar, hdot, hbrack, hquote,
    hd, hnum]

/-- Single octal digits are operand texts with their digit value. -/
theorem parsesOperand_digit (d : Char)
    (hd : d = '0' ∨ d = '1' ∨ d = '2' ∨ d = '3' ∨ d = '4' ∨ d = '5' ∨
          d = '6' ∨ d = '7') :
    ParsesOperand [d] (d.toNat - 48) := by
  rcases hd with rfl | rfl | rfl | rfl | rfl | rfl | rfl | rfl <;>
  · intro fuel rest st h
    obtain ⟨h1, h2, h3, h4⟩ := opOrEol_after_operand (peek rest) h
    exact evaluateOperand_digit fuel _ rest rest st st _ (by decide) (by decide)
      (by decide) (by decide) (by decide) (by decide) (by decide) (by decide)
      (by decide) (by decide)
      (scanNumber_digit _ rest st (by decide) (by decide) (by decide)
        h1 h2 h3 h4)

/-! ### C8: macro parameter substitution -/

/-- A decomposition of one macro body line into segments: plain text
(no dollar signs), a parameter reference $name, or a doubled dollar
$$. -/
inductive MSeg where
  | txt (s : List Char)
  | arg (name : String)
  | dollar
  deriving DecidableEq, Repr

/-- The raw body text of one segment. -/
def renderSeg : MSeg → List Char
  | .txt s => s
  | .arg n => '$' :: n.data
  | .dollar => ['$', '$']

/-- The raw body text of a segment list. -/
def renderSegs : List MSeg → List Char
  | [] => []
  | s :: rest => renderSeg s ++ renderSegs rest

/-- What GetMacroLine delivers for one segment: text verbatim, a
parameter replaced by its actual (or by nothing when no formal
matches), and $$ collapsed to one dollar. -/
def substSeg (exp : MACEXP) : MSeg → List Char
  | .txt s => s
  | .arg n =>
    match searchFormals exp n with
    | some a => a.data
    | none => []
  | .dollar => ['$']

/-- The delivered text of a segment list. -/
def substSegs (exp : MACEXP) : List MSeg → List Char
  | [] => []
  | s :: rest => substSeg exp s ++ substSegs exp rest

/-- The first raw character following a segment list (the closing
newline when the list is empty). -/
def nextRenderChar : List MSeg → Char
  | [] => EOL
  | .txt s :: _ => peek s
  | .arg _ :: _ => '$'
  | .dollar :: _ => '$'

/-- A parameter name as ScanName would deliver it: nonempty, at most 11
characters, starting with an identifier character other than a dollar,
all identifier characters already upper case. -/
def normIdent (n : String) : Bool :=
  !n.data.isEmpty && decide (n.data.length ≤ 11) && isid1 (peek n.data) &&
  !(peek n.data == '$') && n.data.all (fun c => isid2 c && (toupperC c == c))

/-- Plain text with no dollar, no newline and no NUL. -/
def txtOK (s : List Char) : Bool :=
  !s.isEmpty && s.all (fun c => !(c == '$') && !(c == EOL) && !(c == EOS))

/-- Well-formedness of a segment decomposition: text segments are plain,
parameter names are in scanned form, and a parameter reference is
followed by a character that does not extend the name. -/
def segsWF : List MSeg → Bool
  | [] => true
  | .txt s :: rest => txtOK s && segsWF rest
  | .arg n :: rest => normIdent n && !isid2 (nextRenderChar rest) && segsWF rest
  | .dollar :: rest => segsWF rest

/-- The character accumulation of ScanName maps toupper over the
identifier characters and stops exactly at the first non identifier
character. -/
theorem scanChars_append (s rest : List Char)
    (hs : ∀ c ∈ s, isid2 c = true) (hr : isid2 (peek rest) = false) :
    scanChars (s ++ rest) = (s.map toupperC, rest) := by
  induction s with
  | nil =>
    cases rest with
    | nil => rfl
    | cons c t =>
      simp only [peek] at hr
      simp [scanChars, hr]
  | cons a s ih =>
    have ha := hs a (by simp)
    simp only [List.cons_append, scanChars, ha, if_true, List.append_eq]
    rw [ih (fun c hc => hs c (by simp [hc]))]
    simp

/-- Identifier start characters are not white space. -/
theorem isid1_not_space (c : Char) (h : isid1 c = true) : isspaceC c = false := by
  cases hs : isspaceC c with
  | false => rfl
  | true =>
    exfalso
    have hs2 := hs
    simp only [isspaceC, Bool.or_eq_true, decide_eq_true_eq] at hs2
    rcases hs2 with ((((rfl | rfl) | rfl) | rfl) | rfl) | rfl <;>
      exact absurd h (by decide)

/-- ScanName on a scanned-form name followed by a non identifier
character returns exactly that name and consumes exactly its text. -/
theorem scanName_norm (n : String) (rest : List Char)
    (hn : normIdent n = true) (hr : isid2 (peek rest) = false) :
    scanName (n.data ++ rest) = (some n, rest) := by
  have hn2 := hn
  simp only [normIdent, Bool.and_eq_true, Bool.not_eq_true', beq_eq_false_iff_ne,
    decide_eq_true_eq, List.all_eq_true, beq_iff_eq] at hn2
  obtain ⟨⟨⟨⟨hne, hlen⟩, h1⟩, hdol⟩, hall⟩ := hn2
  cases hdata : n.data with
  | nil => rw [hdata] at hne; simp at hne
  | cons a s =>
    rw [hdata] at h1 hlen hall
    simp only [peek] at h1
    simp only [List.cons_append, scanName]
    rw [spanWhite_cons_nospace _ _ (isid1_not_space a h1)]
    rw [if_pos (show isid1 (peek (a :: (s ++ rest))) = true from h1)]
    rw [show a :: (s ++ rest) = (a :: s) ++ rest from rfl,
      scanChars_append (a :: s) rest (fun c hc => (hall c hc).1) hr]
    have hmap : (a :: s).map toupperC = a :: s := by
      have hid : ∀ c ∈ a :: s, toupperC c = id c := fun c hc => (hall c hc).2
      rw [List.map_congr_left hid, List.map_id]
    have hmk : String.mk (a :: s) = n := by rw [← hdata]
    show (some (String.mk (((a :: s).map toupperC).take 11)), rest) = (some n, rest)
    rw [hmap, List.take_of_length_le hlen, hmk]

/-- A nonempty prefix determines the peek of an appended list. -/
theorem peek_append (s t : List Char) (h : s ≠ []) : peek (s ++ t) = peek s := by
  cases s with
  | nil => exact absurd rfl h
  | cons a s2 => rfl

/-- A list whose isEmpty test is false is not nil. -/
theorem isEmpty_false_ne_nil (s : List Char) (h : s.isEmpty = false) :
    s ≠ [] := by
  intro hnil
  rw [hnil] at h
  simp at h

/-- Unpacking the txtOK test. -/
theorem txtOK_spec (s : List Char) (h : txtOK s = true) :
    s ≠ [] ∧ ∀ c ∈ s, c ≠ '$' ∧ c ≠ EOL ∧ c ≠ EOS := by
  have h2 := h
  simp only [txtOK, Bool.and_eq_true, Bool.not_eq_true', beq_eq_false_iff_ne,
    List.all_eq_true] at h2
  refine ⟨isEmpty_false_ne_nil s h2.1, fun c hc => ?_⟩
  have h3 := h2.2 c hc
  tauto

/-- A scanned-form name is nonempty. -/
theorem normIdent_ne_nil (n : String) (h : normIdent n = true) :
    n.data ≠ [] := by
  have h2 := h
  simp only [normIdent, Bool.and_eq_true, Bool.not_eq_true'] at h2
  exact isEmpty_false_ne_nil _ h2.1.1.1.1

/-- A scanned-form name does not start with a dollar. -/
theorem normIdent_peek_ne (n : String) (h : normIdent n = true) :
    peek n.data ≠ '$' := by
  have h2 := h
  simp only [normIdent, Bool.and_eq_true, Bool.not_eq_true',
    beq_eq_false_iff_ne] at h2
  exact h2.1.2

/-- The first raw character after a well formed segment list is
nextRenderChar. -/
theorem peek_renderSegs (rest : List MSeg) (tail : List Char)
    (h : segsWF rest = true) :
    peek (renderSegs rest ++ (EOL :: tail)) = nextRenderChar rest := by
  cases rest with
  | nil => rfl
  | cons seg rest2 =>
    cases seg with
    | txt s =>
      simp only [segsWF, Bool.and_eq_true] at h
      obtain ⟨hne, _⟩ := txtOK_spec s h.1
      cases s with
      | nil => exact absurd rfl hne
      | cons a s2 => rfl
    | arg n => rfl
    | dollar => rfl

/-- The first raw character of a well formed body line is never NUL. -/
theorem peek_render_ne_EOS (segs : List MSeg) (tail : List Char)
    (h : segsWF segs = true) :
    peek (renderSegs segs ++ (EOL :: tail)) ≠ EOS := by
  intro hc
  cases segs with
  | nil => exact absurd (show EOL = EOS from hc) (by decide)
  | cons seg rest =>
    cases seg with
    | txt s =>
      simp only [segsWF, Bool.and_eq_true] at h
      obtain ⟨hne, hch⟩ := txtOK_spec s h.1
      cases s with
      | nil => exact absurd rfl hne
      | cons a s2 =>
        exact absurd (show a = EOS from hc)
          ((hch a (List.mem_cons_self _ _)).2.2)
    | arg n => exact absurd (show ('$' : Char) = EOS from hc) (by decide)
    | dollar => exact absurd (show ('$' : Char) = EOS from hc) (by decide)

/-- One copy step of GetMacroLine on a plain character: it is appended
to the output. -/
theorem gmlLoop_step_plain (exp : MACEXP) (F : Nat) (acc cur : List Char)
    (st : PalxState) (ch : Char) (h1 : ch ≠ '$') (h2 : ch ≠ EOL)
    (h3 : acc.length ≤ 254) :
    gmlLoop exp (F + 1) acc (ch :: cur) st =
      gmlLoop exp F (acc ++ [ch]) cur st := by
  simp only [gmlLoop]
  rw [if_neg h1, if_neg (show ¬ (255 ≤ acc.length) by omega), if_neg h2]

/-- One copy step of GetMacroLine at the closing newline: the finished
line is returned. -/
theorem gmlLoop_step_eol (exp : MACEXP) (F : Nat) (acc cur : List Char)
    (st : PalxState) (h3 : acc.length ≤ 254) :
    gmlLoop exp (F + 1) acc (EOL :: cur) st =
      .line (acc ++ [EOL]) cur st := by
  simp only [gmlLoop]
  rw [if_neg (show ¬ (EOL = '$') by decide),
    if_neg (show ¬ (255 ≤ acc.length) by omega)]
  simp

/-- One copy step of GetMacroLine on a doubled dollar: a single dollar
is appended and both characters are consumed. -/
theorem gmlLoop_step_dollar (exp : MACEXP) (F : Nat) (acc cur : List Char)
    (st : PalxState) :
    gmlLoop exp (F + 1) acc ('$' :: '$' :: cur) st =
      gmlLoop exp F (acc ++ ['$']) cur st := by
  simp only [gmlLoop, if_true]
  rw [if_pos (show peek ('$' :: cur) = '$' from rfl)]
  simp

/-- One copy step of GetMacroLine on a parameter reference bound to an
actual: the actual text is appended and the name is consumed. -/
theorem gmlLoop_step_arg (exp : MACEXP) (F : Nat) (acc cur cur2 : List Char)
    (st : PalxState) (n a : String)
    (hpk : peek cur ≠ '$')
    (hsn : scanName cur = (some n, cur2))
    (hsf : searchFormals exp n = some a)
    (hlen : acc.length + a.data.length ≤ 255) :
    gmlLoop exp (F + 1) acc ('$' :: cur) st =
      gmlLoop exp F (acc ++ a.data) cur2 st := by
  simp only [gmlLoop, if_true]
  rw [if_neg hpk]
  split
  next cur3 heq =>
    rw [hsn] at heq
    simp at heq
  next name cur3 heq =>
    rw [hsn] at heq
    simp only [Prod.mk.injEq, Option.some.injEq] at heq
    obtain ⟨rfl, rfl⟩ := heq
    split
    next a2 hsf2 =>
      rw [hsf] at hsf2
      simp only [Option.some.injEq] at hsf2
      subst hsf2
      rw [if_neg (show ¬ (255 < acc.length + a.length) from by
        have hh : a.length = a.data.length := rfl
        omega)]
    next hsf2 =>
      rw [hsf] at hsf2
      simp at hsf2

/-- One copy step of GetMacroLine on a parameter reference matching no
formal: nothing is appended and the name is consumed. -/
theorem gmlLoop_step_argNone (exp : MACEXP) (F : Nat)
    (acc cur cur2 : List Char) (st : PalxState) (n : String)
    (hpk : peek cur ≠ '$')
    (hsn : scanName cur = (some n, cur2))
    (hsf : searchFormals exp n = none) :
    gmlLoop exp (F + 1) acc ('$' :: cur) st =
      gmlLoop exp F acc cur2 st := by
  simp only [gmlLoop, if_true]
  rw [if_neg hpk]
  split
  next cur3 heq =>
    rw [hsn] at heq
    simp at heq
  next name cur3 heq =>
    rw [hsn] at heq
    simp only [Prod.mk.injEq, Option.some.injEq] at heq
    obtain ⟨rfl, rfl⟩ := heq
    split
    next a2 hsf2 =>
      rw [hsf] at hsf2
      simp at hsf2
    next hsf2 => rfl

/-- The copy loop of GetMacroLine moves plain text (no dollar, no
newline) to the output verbatim, one fuel per character. -/
theorem gmlLoop_txt (exp : MACEXP) (s : List Char) :
    ∀ (fuel : Nat) (acc cur : List Char) (st : PalxState),
      (∀ c ∈ s, c ≠ '$' ∧ c ≠ EOL ∧ c ≠ EOS) →
      acc.length + s.length ≤ 255 →
      gmlLoop exp (s.length + fuel + 1) acc (s ++ cur) st =
        gmlLoop exp (fuel + 1) (acc ++ s) cur st := by
  induction s with
  | nil =>
    intro fuel acc cur st _ _
    simp
  | cons a s ih =>
    intro fuel acc cur st hs hb
    obtain ⟨ha1, ha2, _⟩ := hs a (List.mem_cons_self _ _)
    simp only [List.length_cons] at hb ⊢
    rw [show s.length + 1 + fuel + 1 = (s.length + fuel + 1) + 1 by omega]
    rw [List.cons_append]
    rw [gmlLoop_step_plain exp (s.length + fuel + 1) acc (s ++ cur) st a
      ha1 ha2 (by omega)]
    rw [ih fuel (acc ++ [a]) cur st
      (fun c hc => hs c (List.mem_cons_of_mem _ hc))
      (by simp only [List.length_append, List.length_cons, List.length_nil]
          omega)]
    simp

/-- Fuel consumed by the copy loop across a segment list: one step per
plain character, one per parameter reference, one per dollar escape. -/
def segsCost : List MSeg → Nat
  | [] => 0
  | .txt s :: rest => s.length + segsCost rest
  | .arg _ :: rest => 1 + segsCost rest
  | .dollar :: rest => 1 + segsCost rest

/-- The fuel cost never exceeds the raw body length. -/
theorem segsCost_le (segs : List MSeg) :
    segsCost segs ≤ (renderSegs segs).length := by
  induction segs with
  | nil => simp [segsCost, renderSegs]
  | cons seg rest ih =>
    cases seg <;>
      simp only [segsCost, renderSegs, renderSeg, List.length_append,
        List.length_cons, List.length_nil] <;> omega

/-- substSeg when the formal lookup succeeds. -/
theorem substSeg_some (exp : MACEXP) (n a : String)
    (h : searchFormals exp n = some a) :
    substSeg exp (.arg n) = a.data := by
  simp [substSeg, h]

/-- substSeg when no formal matches. -/
theorem substSeg_none (exp : MACEXP) (n : String)
    (h : searchFormals exp n = none) :
    substSeg exp (.arg n) = [] := by
  simp [substSeg, h]

/-- The copy loop of GetMacroLine delivers a well formed segment list
with every parameter reference substituted and every doubled dollar
collapsed to one. -/
theorem gmlLoop_segs (exp : MACEXP) (tail : List Char) :
    ∀ (segs : List MSeg) (fuel : Nat) (acc : List Char) (st : PalxState),
      segsWF segs = true →
      acc.length + (substSegs exp segs).length ≤ 255 →
      gmlLoop exp (segsCost segs + fuel + 1) acc
          (renderSegs segs ++ (EOL :: tail)) st =
        gmlLoop exp (fuel + 1) (acc ++ substSegs exp segs) (EOL :: tail) st := by
  intro segs
  induction segs with
  | nil =>
    intro fuel acc st _ _
    simp [segsCost, renderSegs, substSegs]
  | cons seg rest ih =>
    intro fuel acc st hw hb
    cases seg with
    | txt s =>
      simp only [segsWF, Bool.and_eq_true] at hw
      obtain ⟨hts, hwr⟩ := hw
      obtain ⟨hne, hch⟩ := txtOK_spec s hts
      simp only [substSegs, substSeg, List.length_append] at hb
      simp only [segsCost, renderSegs, renderSeg, substSegs, substSeg,
        List.append_assoc]
      rw [show s.length + segsCost rest + fuel + 1 =
        s.length + (segsCost rest + fuel) + 1 by omega]
      rw [gmlLoop_txt exp s (segsCost rest + fuel) acc
        (renderSegs rest ++ (EOL :: tail)) st hch (by omega)]
      rw [ih fuel (acc ++ s) st hwr
        (by simp only [List.length_append]; omega)]
      simp [List.append_assoc]
    | dollar =>
      simp only [segsWF] at hw
      simp only [substSegs, substSeg, List.length_append, List.length_cons,
        List.length_nil] at hb
      simp only [segsCost, renderSegs, renderSeg, substSegs, substSeg,
        List.cons_append, List.nil_append, List.append_assoc]
      rw [show 1 + segsCost rest + fuel + 1 =
        ((segsCost rest + fuel) + 1) + 1 by omega]
      rw [gmlLoop_step_dollar exp ((segsCost rest + fuel) + 1) acc
        (renderSegs rest ++ (EOL :: tail)) st]
      rw [ih fuel (acc ++ ['$']) st hw
        (by simp only [List.length_append, List.length_cons, List.length_nil]
            omega)]
      simp
    | arg n =>
      simp only [segsWF, Bool.and_eq_true, Bool.not_eq_true'] at hw
      obtain ⟨⟨hn, hnext⟩, hwr⟩ := hw
      have hr2 : isid2 (peek (renderSegs rest ++ (EOL :: tail))) = false := by
        rw [peek_renderSegs rest tail hwr]
        exact hnext
      have hpk : peek (n.data ++ (renderSegs rest ++ (EOL :: tail))) ≠ '$' := by
        rw [peek_append n.data _ (normIdent_ne_nil n hn)]
        exact normIdent_peek_ne n hn
      have hsn := scanName_norm n (renderSegs rest ++ (EOL :: tail)) hn hr2
      simp only [segsCost, renderSegs, renderSeg, List.cons_append,
        List.append_assoc]
      rw [show 1 + segsCost rest + fuel + 1 =
        ((segsCost rest + fuel) + 1) + 1 by omega]
      cases hsf : searchFormals exp n with
      | some a =>
        simp only [substSegs, List.length_append,
          substSeg_some exp n a hsf] at hb
        rw [gmlLoop_step_arg exp ((segsCost rest + fuel) + 1) acc
          (n.data ++ (renderSegs rest ++ (EOL :: tail)))
          (renderSegs rest ++ (EOL :: tail)) st n a hpk hsn hsf (by omega)]
        rw [ih fuel (acc ++ a.data) st hwr
          (by simp only [List.length_append]; omega)]
        simp [substSegs, substSeg_some exp n a hsf, List.append_assoc]
      | none =>
        simp only [substSegs, List.length_append, substSeg_none exp n hsf,
          List.length_nil] at hb
        rw [gmlLoop_step_argNone exp ((segsCost rest + fuel) + 1) acc
          (n.data ++ (renderSegs rest ++ (EOL :: tail)))
          (renderSegs rest ++ (EOL :: tail)) st n hpk hsn hsf]
        rw [ih fuel acc st hwr (by omega)]
        simp [substSegs, substSeg_none exp n hsf]

/-- C8: while a macro expansion is active, the next delivered body line
has every dollar-name occurrence whose name matches a formal replaced
by the corresponding actual argument text (a reference matching no
formal is replaced by nothing), and every doubled dollar replaced by a
single dollar, anywhere in the line including comment text: for a body
line decomposed into well formed segments, GetMacroLine returns exactly
the substituted text with the closing newline, leaving the cursor at
the rest of the body. -/
theorem C8_macro_substitution (exp : MACEXP) (segs : List MSeg)
    (tail : List Char) (st : PalxState)
    (hw : segsWF segs = true)
    (hb : (substSegs exp segs).length ≤ 254)
    (hexp : exp.pszNextLine = renderSegs segs ++ (EOL :: tail)) :
    getMacroLine exp st = .line (substSegs exp segs ++ [EOL]) tail st := by
  have hcost := segsCost_le segs
  rw [getMacroLine, hexp]
  rw [if_neg (peek_render_ne_EOS segs tail hw)]
  simp only [List.length_append, List.length_cons]
  rw [show (renderSegs segs).length + (tail.length + 1) + 1 =
    segsCost segs +
      ((renderSegs segs).length - segsCost segs + tail.length + 1) + 1
    by omega]
  rw [gmlLoop_segs exp tail segs
    ((renderSegs segs).length - segsCost segs + tail.length + 1) [] st hw
    (by simp only [List.length_nil]; omega)]
  rw [gmlLoop_step_eol exp
    ((renderSegs segs).length - segsCost segs + tail.length + 1)
    ([] ++ substSegs exp segs) tail st
    (by simp only [List.nil_append]; omega)]
  simp

/-- The active expansion used in the C8 witness: one formal $X bound to
the actual FOO, next body line TAD $X ;SAVE $$ AND $X. -/
def mexpC8 : MACEXP :=
  ⟨⟨["$X"], "TAD $X ;SAVE $$ AND $X\nRET\n".data⟩, ["FOO"],
    "TAD $X ;SAVE $$ AND $X\nRET\n".data⟩

/-- The segment decomposition of the first body line of mexpC8. -/
def segsC8 : List MSeg :=
  [.txt "TAD ".data, .arg "X", .txt " ;SAVE ".data, .dollar,
   .txt " AND ".data, .arg "X"]

/-- Witness for C8: the substitution theorem applied to a concrete
expansion binding formal $X to FOO; the delivered line substitutes the
operand and the comment occurrence and collapses the doubled dollar. -/
theorem C8_macro_substitution_witness :
    getMacroLine mexpC8 initState =
      .line ("TAD FOO ;SAVE $ AND FOO\n".data) ("RET\n".data) initState := by
  have h := C8_macro_substitution mexpC8 segsC8 ("RET\n".data) initState
    (by decide) (by decide) (by decide)
  have h2 : substSegs mexpC8 segsC8 ++ [EOL] =
      "TAD FOO ;SAVE $ AND FOO\n".data := by decide
  rw [h2] at h
  exact h

/-- Witness for C9: the fold theorem applied to the concrete expression
1+2*3, whose operands parse by the digit lemma; the result is 9. -/
theorem C9_left_to_right_witness :
    evaluateExpression 4 ("1+2*3\n".data) pass2State =
      ⟨true, 9, "\n".data, pass2State⟩ := by
  have h := C9_left_to_right.1 ['1'] 1
    [('+', ['2'], 2), ('*', ['3'], 3)] ("\n".data) pass2State 0
    (by simpa using parsesOperand_digit '1' (by tauto))
    (by
      intro it hit
      simp only [List.mem_cons, List.mem_singleton] at hit
      rcases hit with rfl | rfl | h
      · exact ⟨rfl, by simpa using parsesOperand_digit '2' (by tauto)⟩
      · exact ⟨rfl, by simpa using parsesOperand_digit '3' (by tauto)⟩
      · cases h)
    (by decide)
  simpa [renderItems, foldOps] using h

/-! ### C3: location counter traces across the two passes -/

/-- The value of a literal-free model expression. -/
def pval : PExpr → Nat
  | .const n => n
  | .lit n => n

/-- The location counter and literal base transition of one statement,
as a pure function of the current (PC, base) pair.  It mirrors
assembleStmt exactly for literal-free statements whose code emission
stays below the literal base; for codeLine that is the transition of
both passes only under that safety condition (pass 1 skips OutputCode
and with it the page overflow handling). -/
def stepPC (pc base : Nat) : Stmt → Nat × Nat
  | .codeLine _ => ((pc + 1) % 65536, base)
  | .blockStmt e =>
    ((pc + (if base < pc + pval e
        then (if pc < base then base - pc else 0) else pval e)) % 65536,
     base)
  | .orgStmt e =>
    (if 0o7777 < pval e then pc else pval e,
     if 0o7777 < pval e then base
     else if Nat.land (pval e) 0o7600 ≠ Nat.land pc 0o7600 ∨ pc = base
       then Nat.land (pval e) 0o7600 + 0o200 else base)
  | .pageStmt =>
    (if 0o7777 < Nat.land (pc + 0o177) 0o7600 then pc
     else Nat.land (pc + 0o177) 0o7600,
     if 0o7777 < Nat.land (pc + 0o177) 0o7600 then base
     else if Nat.land (Nat.land (pc + 0o177) 0o7600) 0o7600 ≠
         Nat.land pc 0o7600 ∨ pc = base
       then Nat.land (Nat.land (pc + 0o177) 0o7600) 0o7600 + 0o200 else base)
  | .endStmt =>
    if base % 128 ≠ 0 then
      (if 0o7777 < Nat.land (pc + 0o177) 0o7600 then pc
       else Nat.land (pc + 0o177) 0o7600,
       if 0o7777 < Nat.land (pc + 0o177) 0o7600 then base
       else if Nat.land (Nat.land (pc + 0o177) 0o7600) 0o7600 ≠
           Nat.land pc 0o7600 ∨ pc = base
         then Nat.land (Nat.land (pc + 0o177) 0o7600) 0o7600 + 0o200 else base)
    else (pc, base)
  | .labelStmt _ => (pc, base)
  | .equateStmt _ _ => (pc, base)

/-- The bitmap marking loop leaves the location counter and literal
base untouched. -/
theorem markRange_fields (k : Nat) : ∀ (a : Nat) (st : PalxState),
    (markRange a k st).nPC = st.nPC ∧
    (markRange a k st).nLiteralBase = st.nLiteralBase := by
  induction k with
  | zero => intro a st; exact ⟨rfl, rfl⟩
  | succ k ih =>
    intro a st
    simp only [markRange]
    constructor
    · rw [(ih (a + 1) (markBitMap st.nField a st)).1,
        (markBitMap_fields _ _ _).1]
    · rw [(ih (a + 1) (markBitMap st.nField a st)).2,
        (markBitMap_fields _ _ _).2.1]

/-- OutputCode below the literal base: the PC advances by one word and
the literal base does not move. -/
theorem outputCode_safe (nCode : Nat) (st : PalxState)
    (h : st.nPC < st.nLiteralBase) :
    (outputCode nCode st).nPC = (st.nPC + 1) % 65536 ∧
    (outputCode nCode st).nLiteralBase = st.nLiteralBase := by
  simp only [outputCode]
  rw [if_neg (show ¬ (st.nLiteralBase ≤ st.nPC) by omega)]
  split_ifs with h2
  · constructor
    · show ((markBitMap st.nField st.nPC (punch st.nPC nCode st)).nPC + 1) %
        65536 = (st.nPC + 1) % 65536
      rw [(markBitMap_fields _ _ _).1, (punch_fields _ _ _).1]
    · show (markBitMap st.nField st.nPC (punch st.nPC nCode st)).nLiteralBase =
        st.nLiteralBase
      rw [(markBitMap_fields _ _ _).2.1, (punch_fields _ _ _).2.1]
  · exact ⟨rfl, rfl⟩

/-- SetPC projections: the PC becomes the requested address unless it
is out of range, and the base is re-planted on the new page exactly
under the page change test. -/
theorem setPC_proj (n : Nat) (st : PalxState) :
    ((setPC n st).2).nPC = (if 0o7777 < n then st.nPC else n) ∧
    ((setPC n st).2).nLiteralBase =
      (if 0o7777 < n then st.nLiteralBase
       else if Nat.land n 0o7600 ≠ Nat.land st.nPC 0o7600 ∨
           st.nPC = st.nLiteralBase
         then Nat.land n 0o7600 + 0o200 else st.nLiteralBase) := by
  simp only [setPC]
  split_ifs with h1 h2
  · exact ⟨Flag_nPC _ _, Flag_nLiteralBase _ _⟩
  · exact ⟨rfl, rfl⟩
  · exact ⟨rfl, rfl⟩

/-- CheckLabel processing of one label leaves the location counter and
literal base untouched. -/
theorem defineLabel_fields (name : String) (st : PalxState) :
    (defineLabel name st).nPC = st.nPC ∧
    (defineLabel name st).nLiteralBase = st.nLiteralBase := by
  simp only [defineLabel, lookupCreate]
  cases h : st.symbols.lookup name with
  | some s =>
    simp only [h]
    split_ifs <;>
      exact ⟨by first | rfl | rw [Flag_nPC],
        by first | rfl | rw [Flag_nLiteralBase]⟩
  | none =>
    simp only [h]
    split_ifs <;>
      exact ⟨by first | rfl | rw [Flag_nPC],
        by first | rfl | rw [Flag_nLiteralBase]⟩

/-- CheckDefinition processing of one equate leaves the location
counter and literal base untouched. -/
theorem defineEquate_fields (name : String) (v : Nat) (st : PalxState) :
    (defineEquate name v st).nPC = st.nPC ∧
    (defineEquate name v st).nLiteralBase = st.nLiteralBase := by
  simp only [defineEquate, lookupCreate]
  cases h : st.symbols.lookup name with
  | some s =>
    simp only [h]
    split_ifs <;>
      exact ⟨by first | rfl | rw [Flag_nPC],
        by first | rfl | rw [Flag_nLiteralBase]⟩
  | none =>
    simp only [h]
    split_ifs <;>
      exact ⟨by first | rfl | rw [Flag_nPC],
        by first | rfl | rw [Flag_nLiteralBase]⟩

/-- One literal-free statement whose code emission stays below the
literal base moves (PC, base) exactly as stepPC says, on either
pass. -/
theorem assembleStmt_proj (s : Stmt) (st : PalxState)
    (hnl : noLitStmt s = true)
    (hcl : ∀ e, s = .codeLine e → st.nPC < st.nLiteralBase) :
    (assembleStmt st s).nPC = (stepPC st.nPC st.nLiteralBase s).1 ∧
    (assembleStmt st s).nLiteralBase = (stepPC st.nPC st.nLiteralBase s).2 := by
  cases s with
  | codeLine e =>
    cases e with
    | lit m => simp [noLitStmt, noLitExpr] at hnl
    | const m =>
      have hsafe := hcl (.const m) rfl
      simp only [assembleStmt]
      by_cases h2 : st.nPass = 2
      · rw [if_pos h2]
        constructor
        · show (outputCode m st).nPC = (st.nPC + 1) % 65536
          exact (outputCode_safe m st hsafe).1
        · show (outputCode m st).nLiteralBase = st.nLiteralBase
          exact (outputCode_safe m st hsafe).2
      · rw [if_neg h2]
        exact ⟨rfl, rfl⟩
  | blockStmt e =>
    cases e with
    | lit m => simp [noLitStmt, noLitExpr] at hnl
    | const m =>
      simp only [assembleStmt, stepPC, pval, evalPExpr, eq_self_iff_true,
        if_true]
      by_cases h1 : st.nLiteralBase < st.nPC + m
      · simp only [if_pos h1]
        by_cases h2 : (Flag ER_PAF st).nPass = 2
        · simp only [if_pos h2]
          refine ⟨?_, ?_⟩
          · rw [(markRange_fields _ _ _).1, Flag_nPC]
          · rw [(markRange_fields _ _ _).2, Flag_nLiteralBase]
        · simp only [if_neg h2]
          refine ⟨?_, ?_⟩
          · rw [Flag_nPC]
          · rw [Flag_nLiteralBase]
      · simp only [if_neg h1]
        by_cases h2 : st.nPass = 2
        · simp only [if_pos h2]
          refine ⟨?_, ?_⟩
          · rw [(markRange_fields _ _ _).1]
          · rw [(markRange_fields _ _ _).2]
        · simp only [if_neg h2]
          exact ⟨trivial, trivial⟩
  | orgStmt e =>
    cases e with
    | lit m => simp [noLitStmt, noLitExpr] at hnl
    | const m => exact ⟨(setPC_proj m st).1, (setPC_proj m st).2⟩
  | pageStmt =>
    exact ⟨(setPC_proj (Nat.land (st.nPC + 0o177) 0o7600) st).1,
      (setPC_proj (Nat.land (st.nPC + 0o177) 0o7600) st).2⟩
  | endStmt =>
    simp only [assembleStmt, stepPC]
    by_cases hE : st.nLiteralBase % 128 ≠ 0
    · simp only [if_pos hE]
      exact ⟨(setPC_proj (Nat.land (st.nPC + 0o177) 0o7600) st).1,
        (setPC_proj (Nat.land (st.nPC + 0o177) 0o7600) st).2⟩
    · simp only [if_neg hE]
      exact ⟨trivial, trivial⟩
  | labelStmt name =>
    exact ⟨(defineLabel_fields name st).1, (defineLabel_fields name st).2⟩
  | equateStmt name e =>
    cases e with
    | lit m => simp [noLitStmt, noLitExpr] at hnl
    | const m =>
      exact ⟨(defineEquate_fields name m st).1, (defineEquate_fields name m st).2⟩

/-- Two runs of a safe statement list from states agreeing on (PC,
base) produce the same location counter trace, whatever else differs
between the states (pass number, symbol table, pool, output). -/
theorem runStmts_sync (prog : List Stmt) :
    ∀ (sa sb : PalxState), sa.nPC = sb.nPC →
      sa.nLiteralBase = sb.nLiteralBase →
      safeRun prog sa = true →
      (runStmts prog sa).1 = (runStmts prog sb).1 := by
  induction prog with
  | nil => intro sa sb _ _ _; rfl
  | cons s rest ih =>
    intro sa sb hpc hbase hsafe
    simp only [safeRun, Bool.and_eq_true] at hsafe
    obtain ⟨⟨hcond, hnl⟩, hrest⟩ := hsafe
    have hcl : ∀ e, s = .codeLine e → sa.nPC < sa.nLiteralBase := by
      intro e he
      subst he
      simpa using hcond
    have ha := assembleStmt_proj s sa hnl hcl
    have hb := assembleStmt_proj s sb hnl (by
      intro e he
      rw [← hpc, ← hbase]
      exact hcl e he)
    have hpc2 : (assembleStmt sa s).nPC = (assembleStmt sb s).nPC := by
      rw [ha.1, hb.1, hpc, hbase]
    have hbase2 : (assembleStmt sa s).nLiteralBase =
        (assembleStmt sb s).nLiteralBase := by
      rw [ha.2, hb.2, hpc, hbase]
    simp only [runStmts]
    rw [hpc2]
    exact congrArg (fun l => (assembleStmt sb s).nPC :: l)
      (ih (assembleStmt sa s) (assembleStmt sb s) hpc2 hbase2 hrest)

/-- A program with no forward references whose pass traces still
differ: code flows onto the literal page, which only pass 2 handles in
OutputCode. -/
def progC3 : List Stmt :=
  [.orgStmt (.const 255), .codeLine (.const 0), .codeLine (.const 0),
   .blockStmt (.const 1)]

/-- Counterexample for C3 as stated: progC3 uses no symbols at all (so
it is free of forward references), yet its pass 1 location counter
trace differs from its pass 2 trace, because pass 1 skips OutputCode
and with it the page overflow rebasing of the literal base. -/
theorem C3_counterexample :
    (assembleTwice progC3).1 ≠ (assembleTwice progC3).2 := by decide

/-- C3 (amended): for a program free of literal operands in which no
code word is assembled with the location counter at or past the
literal base, the location counter trace of pass 1 equals that of pass
2 (run from the pass controller initialization of each pass). -/
theorem C3_trace_equal (prog : List Stmt)
    (h : safeRun prog (passInit 1 initState) = true) :
    (assembleTwice prog).1 = (assembleTwice prog).2 := by
  simp only [assembleTwice]
  exact runStmts_sync prog (passInit 1 initState)
    (passInit 2 (runStmts prog (passInit 1 initState)).2) rfl rfl h

/-- A safe concrete program for the C3 witness: origin, code, a label,
code, a page break, a conditional end of page, an equate and a block
reservation. -/
def progC3W : List Stmt :=
  [.orgStmt (.const 0o300), .codeLine (.const 7), .labelStmt "A",
   .codeLine (.const 2), .pageStmt, .endStmt, .equateStmt "B" (.const 5),
   .blockStmt (.const 2)]

/-- Witness for C3: progC3W satisfies the safety condition and its two
pass traces coincide. -/
theorem C3_trace_equal_witness :
    safeRun progC3W (passInit 1 initState) = true ∧
    (assembleTwice progC3W).1 = (assembleTwice progC3W).2 :=
  ⟨by decide, C3_trace_equal progC3W (by decide)⟩

end Palx
